import Mathlib

/-!
Verification of the BFCL evaluation-result analysis toolkit.

This file shallowly embeds the data-wrangling core of the repository:

* `domain_performance_analyzer.py` — `analyze_domain_performance` and its helpers
  (Python dicts and `defaultdict`s become association lists with insert-or-update
  semantics; the triple-nested `domain_stats_by_model_dataset` dict is flattened to a
  single association list keyed by the `(model, dataset, domain)` triple; Python floats
  are embedded as exact rationals `Rat`);
* `results_to_excel.py` — `extract_model_dataset_results`;
* `data_loader.py` — `load_questions`, `load_ground_truth`, `validate_dataset`
  (file systems become finite maps from file names to parsed record lists; a Python
  `KeyError` escaping a function is an `Except.error`);
* `explorer_data.py` — `apply_filters`, `paginate_data`
  (the `st.error` inline-message side effect becomes a returned message list);
* `utils.py` — `extract_id_number_global`.

Theorems about each claim follow the definitions.
-/

set_option linter.unusedVariables false
set_option linter.unusedSectionVars false

namespace BFCL

/-! ### Association lists with Python-dict semantics

A Python `dict` (and `defaultdict`) is embedded as a `List (κ × β)` in insertion order.
`alUpd d dflt k f` is `d[k] = f(d.get(k, dflt))`: it rewrites the first binding of `k`
in place, or appends a fresh binding when `k` is absent (which is exactly what reading a
missing key of a `defaultdict` followed by a mutation does). -/

def alGet? {κ β : Type} [DecidableEq κ] : List (κ × β) → κ → Option β
  | [], _ => none
  | e :: rest, k => if e.1 = k then some e.2 else alGet? rest k

def alGet {κ β : Type} [DecidableEq κ] (d : List (κ × β)) (dflt : β) (k : κ) : β :=
  (alGet? d k).getD dflt

def alUpd {κ β : Type} [DecidableEq κ] : List (κ × β) → β → κ → (β → β) → List (κ × β)
  | [], dflt, k, f => [(k, f dflt)]
  | e :: rest, dflt, k, f =>
    if e.1 = k then (e.1, f e.2) :: rest else e :: alUpd rest dflt k f

def alKeys {κ β : Type} (d : List (κ × β)) : List κ := d.map Prod.fst

def mapVals {κ β : Type} (g : β → β) (d : List (κ × β)) : List (κ × β) :=
  d.map (fun e => (e.1, g e.2))

/-! ### String helpers shared by several modules

Implemented over `List Char` by structural recursion, so that concrete inputs
evaluate inside the kernel. -/

/-- `pat` is an initial segment of `l`. -/
def leadsWith : List Char → List Char → Bool
  | [], _ => true
  | _ :: _, [] => false
  | p :: ps, c :: cs => p == c && leadsWith ps cs

/-- `pat` occurs contiguously somewhere in `l`. -/
def hasSubList (pat : List Char) : List Char → Bool
  | [] => leadsWith pat []
  | c :: cs => leadsWith pat (c :: cs) || hasSubList pat cs

/-- Python substring test `p in s` (with `"" in s` true, as in Python). -/
def containsSub (s p : String) : Bool :=
  hasSubList p.toList s.toList

/-- Python `str.split(sep)` for a one-character separator. -/
def splitOnCharAux (sep : Char) : List Char → List Char → List (List Char)
  | [], acc => [acc.reverse]
  | c :: cs, acc =>
    if c == sep then acc.reverse :: splitOnCharAux sep cs []
    else splitOnCharAux sep cs (c :: acc)

/-- Python `range_filter.split('-')`. -/
def pySplitDash (s : String) : List String :=
  (splitOnCharAux '-' s.toList []).map String.mk

/-- Python `str.strip()`: remove leading and trailing whitespace. -/
def pyStripChars (l : List Char) : List Char :=
  ((l.dropWhile Char.isWhitespace).reverse.dropWhile Char.isWhitespace).reverse

/-- Value of a non-empty all-digit character list. -/
def parseDigits (l : List Char) : Option Nat :=
  if l.isEmpty then none
  else if l.all Char.isDigit then
    some (l.foldl (fun acc c => acc * 10 + (c.toNat - 48)) 0)
  else none

/-- Python `int(s.strip())`: optional sign followed by decimal digits, `none` when
`int` would raise `ValueError`.  (Python's permissiveness about underscore digit
separators and non-ASCII decimals is not modelled.) -/
def pyInt (s : String) : Option Int :=
  match pyStripChars s.toList with
  | '-' :: rest => (parseDigits rest).map (fun n => -(n : Int))
  | '+' :: rest => (parseDigits rest).map (fun n => (n : Int))
  | l => (parseDigits l).map (fun n => (n : Int))

/-! ### utils.py -/

/-- Maximal runs of decimal digits occurring in a character list, left to right
(`re.findall` of one-or-more digits). -/
def digitRuns : List Char → List (List Char)
  | [] => []
  | c :: rest =>
    if c.isDigit then
      (c :: rest.takeWhile Char.isDigit) :: digitRuns (rest.dropWhile Char.isDigit)
    else
      digitRuns rest
termination_by l => l.length
decreasing_by
  · exact Nat.lt_succ_of_le ((List.dropWhile_suffix _).sublist.length_le)
  · simp

/-- The maximal run of digits at the end of `s` (regex search for trailing digits),
converted to a number. -/
def trailingNum (s : String) : Option Nat :=
  parseDigits ((s.toList.reverse.takeWhile Char.isDigit).reverse)

/-- `utils.extract_id_number_global`: `None`/empty ids give `none`; otherwise the
trailing number of the id, or failing that the last number occurring anywhere in it. -/
def extract_id_number_global (item_id : Option String) : Option Nat :=
  match item_id with
  | none => none
  | some s =>
    if s = "" then none
    else
      match trailingNum s with
      | some n => some n
      | none =>
        match (digitRuns s.toList).getLast? with
        | some run => parseDigits run
        | none => none

/-! ### explorer_data.py -/

/-- A record of a detailed score file as seen by the explorer's filters.  `dump` is the
item's JSON serialization (what the search filter scans); `error` is `none` when the
`error` key is absent or falsy, and otherwise carries the optional `error_type` value;
`id` is the optional `id` field. -/
structure ExplorerItem where
  dump : String := ""
  error : Option (Option String) := none
  id : Option String := none
deriving DecidableEq

/-- The search-filter block of `apply_filters` (case-insensitive substring match on the
full JSON content). -/
def searchFilter (search_term : String) (l : List ExplorerItem) : List ExplorerItem :=
  if search_term = "" then l
  else l.filter (fun it => containsSub it.dump.toLower search_term.toLower)

/-- The error-type-filter block of `apply_filters`. -/
def errorTypeFilter (error_type : String) (l : List ExplorerItem) : List ExplorerItem :=
  if error_type = "" || error_type = "All" then l
  else l.filter (fun it =>
    match it.error with
    | none => false
    | some et => (et.getD "Unknown") == error_type)

/-- The range predicate used by `apply_filters` on a well-formed range. -/
def inRange (a b : Int) (it : ExplorerItem) : Bool :=
  match extract_id_number_global (some (it.id.getD "")) with
  | none => false
  | some n => a ≤ (n : Int) && (n : Int) ≤ b

/-- `explorer_data.apply_filters`.  The second component collects the inline user
messages that the dashboard surfaces via `st.error` (message text abridged: the
original strings contain quote characters, which are immaterial here). -/
def apply_filters (data : List ExplorerItem) (search_term error_type range_filter : String) :
    List ExplorerItem × List String :=
  let fd := errorTypeFilter error_type (searchFilter search_term data)
  if range_filter = "" then (fd, [])
  else
    let parts := pySplitDash range_filter
    if containsSub range_filter "-" && parts.length == 2 then
      match pyInt (parts.headD ""), pyInt ((parts.drop 1).headD "") with
      | some a, some b =>
        if a ≤ b then (fd.filter (inRange a b), [])
        else (fd, ["Range start must be less than or equal to range end"])
      | some _, none => (fd, ["Range values must be numbers (e.g., 45-90)"])
      | none, _ => (fd, ["Range values must be numbers (e.g., 45-90)"])
    else (fd, ["Range format should be start-end (e.g., 45-90)"])

/-! ### data_loader.py

File system layout is embedded as finite maps from file names (dataset names) to
already-parsed record lists; a file "exists" iff its name is bound.  `load_file` from
`bfcl_eval.utils` is not part of this repository's sources; per the spec it parses the
newline-delimited JSON file (optionally sorting by id, which no claim depends on), so a
present file simply yields its parsed records. -/

/-- A Python value as far as `validate_dataset` inspects one: a list or something
else (`isinstance(..., list)`). -/
inductive PyVal
  | listVal (n : Nat)
  | other
deriving DecidableEq

def PyVal.isList : PyVal → Bool
  | .listVal _ => true
  | .other => false

/-- A function-schema record from a `multi_turn_func_doc` file (opaque payload). -/
structure FuncDoc where
  doc : String := ""
deriving DecidableEq

/-- A parsed question record.  Every field a raw JSON object may lack is an `Option`. -/
structure LQuestion where
  id : Option String := none
  question : Option PyVal := none
  function : Option (List FuncDoc) := none
  involved_classes : Option (List String) := none
deriving DecidableEq

/-- A parsed ground-truth record. -/
structure RawAnswer where
  id : Option String := none
deriving DecidableEq

/-- The directories a `BFCLDataLoader` reads: the data directory, its
`possible_answer` subdirectory, and the optional `multi_turn_func_doc` subdirectory. -/
structure BFCLDataLoader where
  data_dir : List (String × List LQuestion)
  answer_dir : List (String × List RawAnswer)
  func_doc_dir : Option (List (String × List FuncDoc)) := none
deriving DecidableEq

/-- `BFCLDataLoader._get_func_doc_name`'s class-to-file lookup table. -/
def class_to_doc_mapping : List (String × String) :=
  [("GorillaFileSystem", "gorilla_file_system"), ("MathAPI", "math_api"),
   ("MessageAPI", "message_api"), ("TwitterAPI", "posting_api"),
   ("TicketAPI", "ticket_api"), ("TradingBot", "trading_bot"),
   ("TravelAPI", "travel_booking"), ("VehicleControlAPI", "vehicle_control")]

/-- `BFCLDataLoader._get_func_doc_name`. -/
def getFuncDocName (class_name : String) : String :=
  (alGet? class_to_doc_mapping class_name).getD class_name.toLower

/-- `BFCLDataLoader._add_multi_turn_functions`: when the function-doc directory exists,
assemble each question's `function` list by concatenating the docs matched through
`involved_classes` (unknown classes silently contribute nothing). -/
def addMultiTurnFunctions (func_docs : Option (List (String × List FuncDoc)))
    (questions : List LQuestion) : List LQuestion :=
  match func_docs with
  | none => questions
  | some docs =>
    questions.map (fun q =>
      match q.involved_classes with
      | some cls =>
          { q with function := some (cls.foldl
              (fun acc c => acc ++ ((alGet? docs (getFuncDocName c)).getD [])) []) }
      | none => { q with function := some [] })

/-- `BFCLDataLoader.is_multi_turn_dataset`. -/
def is_multi_turn_dataset (dataset_name : String) : Bool :=
  containsSub dataset_name "multi_turn"

/-- `BFCLDataLoader.load_questions`: `FileNotFoundError` when the dataset file is
absent; otherwise the parsed questions, run through the multi-turn join for
multi-turn datasets. -/
def load_questions (dl : BFCLDataLoader) (dataset_name : String) :
    Except String (List LQuestion) :=
  match alGet? dl.data_dir dataset_name with
  | none => .error ("Dataset file not found: " ++ dataset_name)
  | some qs =>
    if is_multi_turn_dataset dataset_name then
      .ok (addMultiTurnFunctions dl.func_doc_dir qs)
    else .ok qs

/-- `BFCLDataLoader.load_ground_truth`: the empty list (not an error) when the
possible-answer file is absent. -/
def load_ground_truth (dl : BFCLDataLoader) (dataset_name : String) : List RawAnswer :=
  match alGet? dl.answer_dir dataset_name with
  | none => []
  | some gts => gts

structure ValidationResult where
  is_valid : Bool
  errors : List String
  warnings : List String
deriving DecidableEq

/-- Python's `x["id"]` on a record whose `id` key may be absent: raises `KeyError`. -/
def pyDictId (o : Option String) : Except String String :=
  match o with
  | none => Except.error "KeyError: id"
  | some s => Except.ok s

/-- The per-question structure checks of `validate_dataset` (lines 245-255): missing
`id`/`question`/`function` fields and a non-list `question` field, tagged with the
question's position. -/
def structureErrors (questions : List LQuestion) : List String :=
  (questions.enum.map (fun iq =>
    (if iq.2.id = none then ["Question " ++ toString iq.1 ++ " missing id field"] else [])
      ++ (if iq.2.question = none then
            ["Question " ++ toString iq.1 ++ " missing question field"] else [])
      ++ (if iq.2.function = none then
            ["Question " ++ toString iq.1 ++ " missing function field"] else [])
      ++ (match iq.2.question with
          | some v =>
            if v.isList then []
            else ["Question " ++ toString iq.1 ++ " question field is not a list"]
          | none => []))).flatten

/-- The duplicate/cross-reference part of `validate_dataset` over the ground truth
(lines 225-242): returns `(errors, warnings)`, raising `KeyError` when a ground-truth
record lacks an `id`.  Warning texts carrying Python set representations are abridged
to their fixed prefixes, which no claim inspects. -/
def gtChecks (question_ids : List String) (ground_truth : List RawAnswer) :
    Except String (List String × List String) :=
  if ground_truth.isEmpty then
    Except.ok ([], ["No ground truth available for this dataset"])
  else
    match ground_truth.mapM (fun g => pyDictId g.id) with
    | .error e => .error e
    | .ok gids =>
      Except.ok
        ((if gids.dedup.length ≠ gids.length then ["Duplicate ground truth IDs found"]
          else []),
         ((if gids.any (fun i => decide (i ∉ question_ids)) then
             ["Ground truth IDs without corresponding questions"] else [])
           ++ (if question_ids.any (fun i => decide (i ∉ gids)) then
                 ["Questions without ground truth"] else [])))

/-- `BFCLDataLoader.validate_dataset`.  A `FileNotFoundError` while loading is caught
and reported (first branch); but the id-uniqueness check `[q["id"] for q in questions]`
(line 220) runs before the per-question structure checks and raises an uncaught
`KeyError` when any question lacks an `id` — embedded as `Except.error`. -/
def validate_dataset (dl : BFCLDataLoader) (dataset_name : String) :
    Except String ValidationResult :=
  match load_questions dl dataset_name with
  | .error e => .ok ⟨false, [e], []⟩
  | .ok questions =>
    let ground_truth := load_ground_truth dl dataset_name
    match questions.mapM (fun q => pyDictId q.id) with
    | .error e => .error e
    | .ok question_ids =>
      let errors1 :=
        if question_ids.dedup.length ≠ question_ids.length then
          ["Duplicate question IDs found"]
        else []
      match gtChecks question_ids ground_truth with
      | .error e => .error e
      | .ok gtres =>
        let errors := errors1 ++ gtres.1 ++ structureErrors questions
        .ok ⟨errors.isEmpty, errors, gtres.2⟩

/-- `explorer_data.paginate_data`: the Python slice `data[start:end]` with
`start = (page-1)*page_size` and `end = min(start+page_size, len(data))`.
(The claims only concern `page ≥ 1`, where no negative Python index can arise.) -/
def paginate_data {α : Type} (data : List α) (page page_size : Nat) : List α :=
  let start_idx := (page - 1) * page_size
  let end_idx := min (start_idx + page_size) data.length
  (data.take end_idx).drop start_idx

/-! ### domain_performance_analyzer.py

The analyzer is embedded on the post-glob file contents: `DataFiles` is the list of
`(dataset_name, parsed question records)` pairs the data-directory glob produced, and a
`ScoreFile` is one `{dataset}_score.json` found under a model directory of the score
directory (so its `(model, dataset)` pair identifies it).  The `model_name` CLI filter
is not exercised by any claim and is embedded in its default `None` state, where the
glob matches every model directory. -/

/-- A question record of a multi-turn data file as the analyzer reads it. -/
structure DataItem where
  id : String
  involved_classes : List String
deriving DecidableEq

/-- `get_data_domains`: `set(data_item.get('involved_classes', []))` — the distinct
involved classes (a Python set, embedded as a deduplicated list). -/
def get_data_domains (it : DataItem) : List String :=
  it.involved_classes.dedup

/-- One newline-delimited record of a score file.  The first record of a file is the
summary (carrying `total_count`/`correct_count`); the rest are failure records
(carrying `id` and `error.error_type`).  All keys are read with `.get` defaults in the
source, so every field is optional; `error_type` is the value of
`rec.get('error', {}).get('error_type')`. -/
structure ScoreRec where
  total_count : Option Int := none
  correct_count : Option Int := none
  id : Option String := none
  error_type : Option String := none
deriving DecidableEq

/-- A score file `score_dir/{model}/{dataset}_score.json`. -/
structure ScoreFile where
  model : String
  dataset : String
  recs : List ScoreRec
deriving DecidableEq

/-- The per-(model, dataset, domain) statistics record of
`domain_stats_by_model_dataset`, with the `defaultdict` initial values. -/
structure DomainStat where
  total_instances : Nat := 0
  failed_instances : Nat := 0
  success_rate : Rat := 0
  error_types : List (String × Nat) := []
deriving DecidableEq

/-- The per-`{dataset}_{model}` record of `dataset_stats`.  `failed_instances` is
`total_count - correct_count` of a summary, a Python `int` subtraction (which can go
negative on inconsistent summaries), hence `Int`. -/
structure DatasetStat where
  total_instances : Nat := 0
  failed_instances : Int := 0
  success_rate : Rat := 0
deriving DecidableEq

structure OverallStats where
  total_instances : Nat := 0
  total_failed : Int := 0
  overall_success_rate : Rat := 0
deriving DecidableEq

/-- Key of the flattened `domain_stats_by_model_dataset`: `(model, dataset, domain)`. -/
abbrev SKey := String × String × String

abbrev StatsMap := List (SKey × DomainStat)

abbrev DStats := List (String × DatasetStat)

structure AnalysisResult where
  domain_stats_by_model_dataset : StatsMap
  dataset_stats : DStats
  overall_stats : OverallStats
deriving DecidableEq

abbrev DataFiles := List (String × List DataItem)

def dfltStat : DomainStat := {}

def dfltDStat : DatasetStat := {}

def statGet (s : StatsMap) (k : SKey) : DomainStat := alGet s dfltStat k

/-- `defaultdict(int)` increment `d[k] += 1`. -/
def incrCount (d : List (String × Nat)) (k : String) : List (String × Nat) :=
  alUpd d 0 k (fun n => n + 1)

/-- `dataset_domain_counts` (lines 106-110): per-domain instance counts of one dataset
(a question tagged with N distinct domains increments N counters by one each). -/
def datasetDomainCounts (items : List DataItem) : List (String × Nat) :=
  items.foldl (fun d it => (get_data_domains it).foldl incrCount d) []

/-- Python `set.add` on a set embedded as a duplicate-free list. -/
def addModel (acc : List String) (m : String) : List String :=
  if m ∈ acc then acc else acc ++ [m]

/-- `all_models` (lines 88-98): every model directory holding a score file for one of
the data files' datasets. -/
def allModels (df : DataFiles) (sfs : List ScoreFile) : List String :=
  df.foldl (fun acc p =>
    (sfs.filter (fun sf => sf.dataset = p.1)).foldl (fun a sf => addModel a sf.model) acc)
    []

/-- `dataset_totals` (lines 67-74): number of questions per dataset.  (The sibling
`domain_totals` accumulator of the same pass is never read afterwards and is omitted.) -/
def datasetTotals (df : DataFiles) : List (String × Nat) :=
  df.foldl (fun d p => alUpd d 0 p.1 (fun _ => p.2.length)) []

/-- Line 116: `results[...][model][dataset][domain]['total_instances'] = count`. -/
def statSetTotal (s : StatsMap) (k : SKey) (n : Nat) : StatsMap :=
  alUpd s dfltStat k (fun st => { st with total_instances := n })

/-- The initialization pass (lines 101-120): for every dataset, every model and every
domain occurring in the dataset, store the domain's instance count. -/
def initPass (df : DataFiles) (models : List String) : StatsMap :=
  df.foldl (fun s p =>
    let counts := datasetDomainCounts p.2
    models.foldl (fun s2 m =>
      counts.foldl (fun s3 dc => statSetTotal s3 (m, p.1, dc.1) dc.2) s2) s) []

/-- `data_by_id` lookup (line 161): a dict comprehension keyed by `item['id']`, so the
last question with a given id wins. -/
def lookupById (items : List DataItem) (i : String) : Option DataItem :=
  (items.filter (fun it => it.id = i)).getLast?

/-- Lines 191-196: increment the failure counter of one domain key and its error-type
histogram. -/
def statIncFail (s : StatsMap) (k : SKey) (et : String) : StatsMap :=
  alUpd s dfltStat k (fun st =>
    { st with failed_instances := st.failed_instances + 1,
              error_types := incrCount st.error_types et })

/-- The domains a failure record's lookup reaches (lines 181-186): none when its `id`
is absent, empty (Python falsiness) or unmatched in `data_by_id`; otherwise the
matched question's domains. -/
def getMatchedDomains (items : List DataItem) (r : ScoreRec) : List String :=
  match r.id with
  | none => []
  | some i =>
    if i = "" then []
    else
      match lookupById items i with
      | none => []
      | some q => get_data_domains q

/-- Processing of one failure record (lines 180-196): skipped records touch nothing;
a matched record increments the failure counter and error-type histogram of every
domain of its question, with error type `rec.get('error', {}).get('error_type',
'unknown')`. -/
def procFail (items : List DataItem) (m ds : String) (s : StatsMap) (r : ScoreRec) :
    StatsMap :=
  (getMatchedDomains items r).foldl
    (fun s2 dom => statIncFail s2 (m, ds, dom) (r.error_type.getD "unknown")) s

/-- Lines 173-174: `summary.get('total_count', 0) - summary.get('correct_count', 0)`
of the first record (an empty file behaves as an empty summary dict). -/
def summaryFailed (recs : List ScoreRec) : Int :=
  let summary := recs.head?.getD {}
  summary.total_count.getD 0 - summary.correct_count.getD 0

/-- The `dataset_stats` half of processing one score file (lines 163-175): initialize
the `{dataset}_{model}` entry when absent (with the dataset's question count as total)
and overwrite its `failed_instances` from the summary record. -/
def dstep (dtotals : List (String × Nat)) (ds : String) (d : DStats) (sf : ScoreFile) :
    DStats :=
  let dsKey := ds ++ "_" ++ sf.model
  let d2 :=
    if dsKey ∈ alKeys d then d
    else d ++ [(dsKey, { total_instances := alGet dtotals 0 ds })]
  alUpd d2 dfltDStat dsKey (fun st => { st with failed_instances := summaryFailed sf.recs })

/-- Processing of one score file (lines 150-196): the `dataset_stats` update and the
fold of the failure records (everything after the first line) into the domain stats;
the two halves touch disjoint state. -/
def procScoreFile (dtotals : List (String × Nat)) (items : List DataItem) (ds : String)
    (sf : ScoreFile) (acc : StatsMap × DStats) : StatsMap × DStats :=
  ((sf.recs.drop 1).foldl (procFail items sf.model ds) acc.1, dstep dtotals ds acc.2 sf)

/-- The failure pass (lines 122-196): for every dataset, process every score file for
that dataset. -/
def failPass (df : DataFiles) (sfs : List ScoreFile) (s0 : StatsMap) : StatsMap × DStats :=
  let dtotals := datasetTotals df
  df.foldl (fun acc p =>
    (sfs.filter (fun sf => sf.dataset = p.1)).foldl
      (fun acc2 sf => procScoreFile dtotals p.2 p.1 sf acc2) acc) (s0, [])

/-- The `(key, count)` writes the initialization pass performs, in order (a flattened
reading of `initPass`, proved equivalent below). -/
def initSpecs (df : DataFiles) (models : List String) : List (SKey × Nat) :=
  df.flatMap (fun p => models.flatMap (fun m =>
    (datasetDomainCounts p.2).map (fun dc => (((m, p.1, dc.1) : SKey), dc.2))))

/-- The `(key, error_type)` increments the failure pass performs on the domain stats,
in order (a flattened reading of the stats half of `failPass`, proved equivalent
below). -/
def failSpecs (df : DataFiles) (sfs : List ScoreFile) : List (SKey × String) :=
  df.flatMap (fun p => (sfs.filter (fun sf => sf.dataset = p.1)).flatMap (fun sf =>
    (sf.recs.drop 1).flatMap (fun r =>
      (getMatchedDomains p.2 r).map (fun dom =>
        (((sf.model, p.1, dom) : SKey), r.error_type.getD "unknown")))))

/-- The domain-stats component of the failure pass. -/
def failStats (df : DataFiles) (sfs : List ScoreFile) (s0 : StatsMap) : StatsMap :=
  df.foldl (fun s p =>
    (sfs.filter (fun sf => sf.dataset = p.1)).foldl
      (fun s2 sf => (sf.recs.drop 1).foldl (procFail p.2 sf.model p.1) s2) s) s0

/-- The dataset-stats component of the failure pass. -/
def failDStats (df : DataFiles) (sfs : List ScoreFile) : DStats :=
  df.foldl (fun d p =>
    (sfs.filter (fun sf => sf.dataset = p.1)).foldl (dstep (datasetTotals df) p.1) d) []

/-- The success-rate computation (lines 202-204): only entries with a positive total
are touched; the subtraction is on Python ints and the division exact on `Rat`. -/
def rateify (st : DomainStat) : DomainStat :=
  if 0 < st.total_instances then
    { st with success_rate :=
        ((st.total_instances : Rat) - (st.failed_instances : Rat)) / (st.total_instances : Rat) }
  else st

/-- Lines 206-209: the dataset-level success-rate computation. -/
def rateifyD (st : DatasetStat) : DatasetStat :=
  if 0 < st.total_instances then
    { st with success_rate :=
        ((st.total_instances : Rat) - (st.failed_instances : Rat)) / (st.total_instances : Rat) }
  else st

/-- `analyze_domain_performance` with `model_name = None`. -/
def analyze_domain_performance (df : DataFiles) (sfs : List ScoreFile) : AnalysisResult :=
  let models := allModels df sfs
  let s0 := initPass df models
  let sd := failPass df sfs s0
  let s2 := mapVals rateify sd.1
  let d2 := mapVals rateifyD sd.2
  let ti : Nat := (d2.map (fun e => e.2.total_instances)).sum
  let tf : Int := (d2.map (fun e => e.2.failed_instances)).sum
  let rate : Rat := if 0 < ti then ((ti : Rat) - (tf : Rat)) / (ti : Rat) else 0
  ⟨s2, d2, ⟨ti, tf, rate⟩⟩

/-- Whether a failure record hits domain `dom` (the per-record reading of the failure
pass for one domain counter). -/
def matchesFailure (items : List DataItem) (dom : String) (r : ScoreRec) : Bool :=
  decide (dom ∈ getMatchedDomains items r)

/-- Number of failure records of a score file that hit domain `dom`. -/
def failCount (items : List DataItem) (recs : List ScoreRec) (dom : String) : Nat :=
  (recs.drop 1).countP (matchesFailure items dom)

/-- The `{dataset}_{model}` string key of `dataset_stats` (line 164). -/
def dsetKey (sf : ScoreFile) : String := sf.dataset ++ "_" ++ sf.model

/-- The score files the failure pass processes, in processing order: for each data
file, the score files for its dataset. -/
def processedScoreFiles (df : DataFiles) (sfs : List ScoreFile) : List ScoreFile :=
  df.flatMap (fun p => sfs.filter (fun sf => sf.dataset = p.1))

/-- Sum of the domain-level failure counters of one (model, dataset) pair across all
its domains. -/
def sumFailedOver (m ds : String) (stats : StatsMap) : Int :=
  ((stats.filter (fun e => decide (e.1.1 = m ∧ e.1.2.1 = ds))).map
    (fun e => (e.2.failed_instances : Int))).sum

/-! ### results_to_excel.py -/

/-- One flattened row of the exporter. -/
structure ExportRecord where
  domain : String
  model : String
  dataset : String
  success_rate : Rat
deriving DecidableEq

/-- `extract_model_dataset_results`: flatten `domain_stats_by_model_dataset` into
records, keeping only entries with instances. -/
def extract_model_dataset_results (stats : StatsMap) : List ExportRecord :=
  (stats.filter (fun e => decide (0 < e.2.total_instances))).map
    (fun e => ⟨e.1.2.2, e.1.1, e.1.2.1, e.2.success_rate⟩)

/-! ## Lemma library

General facts about the association-list embedding of Python dicts and about folds,
used by the claim theorems below. -/

section AListLemmas

variable {κ β : Type} [DecidableEq κ]

theorem alGet?_alUpd (d : List (κ × β)) (dflt : β) (k k' : κ) (f : β → β) :
    alGet? (alUpd d dflt k f) k' =
      if k' = k then some (f (alGet d dflt k)) else alGet? d k' := by
  induction d with
  | nil =>
    by_cases h : k' = k
    · subst h; simp [alUpd, alGet?, alGet]
    · have h2 : ¬ k = k' := fun hh => h hh.symm
      simp [alUpd, alGet?, alGet, h, h2]
  | cons e rest ih =>
    by_cases he : e.1 = k
    · subst he
      by_cases h : k' = e.1
      · subst h; simp [alUpd, alGet?, alGet]
      · have h2 : ¬ e.1 = k' := fun hh => h hh.symm
        simp [alUpd, alGet?, alGet, h, h2]
    · by_cases h : k' = k
      · subst h
        simp [alUpd, alGet?, alGet, he, ih]
      · by_cases he' : e.1 = k' <;> simp [alUpd, alGet?, alGet, he, he', ih, h]

theorem alGet_alUpd (d : List (κ × β)) (dflt : β) (k k' : κ) (f : β → β) :
    alGet (alUpd d dflt k f) dflt k' =
      if k' = k then f (alGet d dflt k) else alGet d dflt k' := by
  unfold alGet
  rw [alGet?_alUpd]
  by_cases h : k' = k <;> simp [h, alGet]

theorem alKeys_alUpd (d : List (κ × β)) (dflt : β) (k : κ) (f : β → β) :
    alKeys (alUpd d dflt k f) =
      if k ∈ alKeys d then alKeys d else alKeys d ++ [k] := by
  induction d with
  | nil => simp [alUpd, alKeys]
  | cons e rest ih =>
    by_cases he : e.1 = k
    · subst he
      simp [alUpd, alKeys]
    · have hne : ¬ k = e.1 := fun h => he h.symm
      have hcons : alUpd (e :: rest) dflt k f = e :: alUpd rest dflt k f := by
        simp [alUpd, he]
      have hkeys : ∀ (l : List (κ × β)) (x : κ × β),
          alKeys (x :: l) = x.1 :: alKeys l := fun _ _ => rfl
      rw [hcons, hkeys, ih, hkeys]
      by_cases hk : k ∈ alKeys rest
      · simp [hk, hne]
      · simp [hk, hne]

theorem mem_alKeys_alUpd (d : List (κ × β)) (dflt : β) (k k' : κ) (f : β → β) :
    k' ∈ alKeys (alUpd d dflt k f) ↔ k' ∈ alKeys d ∨ k' = k := by
  rw [alKeys_alUpd]
  by_cases hk : k ∈ alKeys d
  · simp [hk]
    exact fun h => h ▸ hk
  · simp [hk]

theorem nodup_alKeys_alUpd (d : List (κ × β)) (dflt : β) (k : κ) (f : β → β)
    (h : (alKeys d).Nodup) : (alKeys (alUpd d dflt k f)).Nodup := by
  rw [alKeys_alUpd]
  by_cases hk : k ∈ alKeys d
  · simpa [hk] using h
  · rw [if_neg hk]
    refine List.Nodup.append h (List.nodup_singleton _) ?_
    intro a ha hab
    rcases List.mem_singleton.mp hab with rfl
    exact hk ha

theorem alGet?_eq_none_iff (d : List (κ × β)) (k : κ) :
    alGet? d k = none ↔ k ∉ alKeys d := by
  induction d with
  | nil => simp [alGet?, alKeys]
  | cons e rest ih =>
    by_cases he : e.1 = k
    · subst he
      simp [alGet?, alKeys]
    · have hne : ¬ k = e.1 := fun h => he h.symm
      have hkeys : alKeys (e :: rest) = e.1 :: alKeys rest := rfl
      rw [hkeys]
      simp [alGet?, he, hne, ih]

theorem alGet?_of_mem_nodup {d : List (κ × β)} {k : κ} {v : β}
    (hnd : (alKeys d).Nodup) (hm : (k, v) ∈ d) : alGet? d k = some v := by
  induction d with
  | nil => cases hm
  | cons e rest ih =>
    rcases List.mem_cons.mp hm with hm | hm
    · simp [← hm, alGet?]
    · have hk : k ∈ alKeys rest := by
        have : (k, v).1 ∈ rest.map Prod.fst := List.mem_map_of_mem Prod.fst hm
        simpa [alKeys] using this
      have he : e.1 ≠ k := by
        intro h
        exact (List.nodup_cons.mp (by simpa [alKeys] using hnd)).1 (h ▸ hk)
      simp only [alGet?, if_neg he]
      exact ih (List.nodup_cons.mp (by simpa [alKeys] using hnd)).2 hm

theorem forall_alUpd {P : β → Prop} {d : List (κ × β)} {dflt : β} {k : κ} {f : β → β}
    (hf : ∀ b, P (f b)) (hP : ∀ e ∈ d, P e.2) :
    ∀ e ∈ alUpd d dflt k f, P e.2 := by
  induction d with
  | nil => simp [alUpd]; exact hf dflt
  | cons e rest ih =>
    by_cases he : e.1 = k
    · intro e' he'
      simp [alUpd, he] at he'
      rcases he' with he' | he'
      · rw [he']; exact hf e.2
      · exact hP e' (List.mem_cons_of_mem _ he')
    · intro e' he'
      simp only [alUpd, if_neg he] at he'
      rcases List.mem_cons.mp he' with he' | he'
      · rw [he']; exact hP e (List.mem_cons_self _ _)
      · exact ih (fun x hx => hP x (List.mem_cons_of_mem _ hx)) e' he'

theorem forall_alUpd_mem {P : β → Prop} {d : List (κ × β)} {dflt : β} {k : κ} {f : β → β}
    (hk : k ∈ alKeys d) (hf : ∀ b, P b → P (f b)) (hP : ∀ e ∈ d, P e.2) :
    ∀ e ∈ alUpd d dflt k f, P e.2 := by
  induction d with
  | nil => cases hk
  | cons e rest ih =>
    by_cases he : e.1 = k
    · intro e' he'
      simp [alUpd, he] at he'
      rcases he' with he' | he'
      · rw [he']; exact hf _ (hP e (List.mem_cons_self _ _))
      · exact hP e' (List.mem_cons_of_mem _ he')
    · have hk' : k ∈ alKeys rest := by
        rcases (by simpa [alKeys] using hk : k = e.1 ∨ k ∈ alKeys rest) with h | h
        · exact absurd h.symm he
        · exact h
      intro e' he'
      simp only [alUpd, if_neg he] at he'
      rcases List.mem_cons.mp he' with he' | he'
      · rw [he']; exact hP e (List.mem_cons_self _ _)
      · exact ih hk' (fun x hx => hP x (List.mem_cons_of_mem _ hx)) e' he'

theorem alKeys_mapVals (g : β → β) (d : List (κ × β)) :
    alKeys (mapVals g d) = alKeys d := by
  simp [alKeys, mapVals, List.map_map, Function.comp]

theorem alGet?_mapVals (g : β → β) (d : List (κ × β)) (k : κ) :
    alGet? (mapVals g d) k = (alGet? d k).map g := by
  induction d with
  | nil => simp [mapVals, alGet?]
  | cons e rest ih =>
    have hcons : mapVals g (e :: rest) = (e.1, g e.2) :: mapVals g rest := rfl
    rw [hcons]
    by_cases he : e.1 = k <;> simp [alGet?, he, ih]

theorem alGet_mapVals {g : β → β} {dflt : β} (hg : g dflt = dflt)
    (d : List (κ × β)) (k : κ) :
    alGet (mapVals g d) dflt k = g (alGet d dflt k) := by
  unfold alGet
  rw [alGet?_mapVals]
  cases alGet? d k <;> simp [hg]

end AListLemmas

section FoldLemmas

theorem foldl_invariant {σ α : Type} (step : σ → α → σ) (Inv : σ → Prop) (l : List α)
    (h : ∀ s x, x ∈ l → Inv s → Inv (step s x)) :
    ∀ s, Inv s → Inv (l.foldl step s) := by
  induction l with
  | nil => intro s hs; exact hs
  | cons x rest ih =>
    intro s hs
    exact ih (fun s' y hy => h s' y (List.mem_cons_of_mem _ hy))
      (step s x) (h s x (List.mem_cons_self _ _) hs)

theorem foldl_skip {σ α : Type} (step : σ → α → σ) (r : α) (l1 l2 : List α)
    (h : ∀ s, step s r = s) (s : σ) :
    (l1 ++ r :: l2).foldl step s = (l1 ++ l2).foldl step s := by
  rw [List.foldl_append, List.foldl_append, List.foldl_cons, h]

theorem foldl_prod_split {σ τ α : Type} (step : σ × τ → α → σ × τ)
    (f : σ → α → σ) (g : τ → α → τ) (l : List α)
    (h : ∀ p x, x ∈ l → step p x = (f p.1 x, g p.2 x)) :
    ∀ p : σ × τ, l.foldl step p = (l.foldl f p.1, l.foldl g p.2) := by
  induction l with
  | nil => intro p; rfl
  | cons x rest ih =>
    intro p
    rw [List.foldl_cons, List.foldl_cons, List.foldl_cons,
      h p x (List.mem_cons_self _ _)]
    exact ih (fun p' y hy => h p' y (List.mem_cons_of_mem _ hy)) _

theorem foldl_flatMap {σ α γ : Type} (step : σ → γ → σ) (g : α → List γ) (l : List α)
    (s : σ) :
    (l.flatMap g).foldl step s = l.foldl (fun acc x => (g x).foldl step acc) s := by
  induction l generalizing s with
  | nil => rfl
  | cons x rest ih => rw [List.flatMap_cons, List.foldl_append, List.foldl_cons, ih]

theorem sum_map_ite_filter {α M : Type} [AddCommMonoid M] (l : List α) (p : α → Bool)
    (g : α → M) :
    (l.map (fun x => if p x then g x else 0)).sum = ((l.filter p).map g).sum := by
  induction l with
  | nil => rfl
  | cons x rest ih =>
    by_cases hx : p x <;> simp [List.filter_cons, hx, ih]

theorem sum_map_single {α κ M : Type} [AddCommMonoid M] {l : List α} {p₀ : α} (f : α → M)
    (key : α → κ) (hnd : (l.map key).Nodup) (hm : p₀ ∈ l)
    (h0 : ∀ p ∈ l, key p ≠ key p₀ → f p = 0) :
    (l.map f).sum = f p₀ := by
  induction l with
  | nil => cases hm
  | cons x rest ih =>
    have hx : key x ∉ rest.map key := (List.nodup_cons.mp (by simpa using hnd)).1
    have hnd' : (rest.map key).Nodup := (List.nodup_cons.mp (by simpa using hnd)).2
    rcases List.mem_cons.mp hm with hm | hm
    · subst hm
      have hz : (rest.map f).sum = 0 := by
        apply List.sum_eq_zero
        intro y hy
        rcases List.mem_map.mp hy with ⟨p, hp, rfl⟩
        exact h0 p (List.mem_cons_of_mem _ hp)
          (fun h => hx (h ▸ List.mem_map_of_mem key hp))
      simp [hz]
    · have hxz : f x = 0 :=
        h0 x (List.mem_cons_self _ _)
          (fun h => hx (h ▸ List.mem_map_of_mem key hm))
      have := ih hnd' hm (fun p hp => h0 p (List.mem_cons_of_mem _ hp))
      simp [hxz, this]


theorem countP_eq_sum_ite {α : Type} (l : List α) (q : α → Bool) :
    l.countP q = (l.map (fun y => if q y then 1 else 0)).sum := by
  induction l with
  | nil => rfl
  | cons x rest ih =>
    by_cases hx : q x <;> simp [List.countP_cons, hx, ih, Nat.add_comm]

theorem sum_countP_swap {α γ : Type} (D : List γ) (l : List α) (p : γ → α → Bool) :
    (D.map (fun x => l.countP (p x))).sum = (l.map (fun y => D.countP (fun x => p x y))).sum := by
  induction D with
  | nil => simp
  | cons d D' ih =>
    have hsplit :
        (l.map (fun y => D'.countP (fun x => p x y) + if p d y then 1 else 0)).sum
          = (l.map (fun y => D'.countP (fun x => p x y))).sum
            + (l.map (fun y => if p d y then 1 else 0)).sum := by
      induction l with
      | nil => rfl
      | cons z zs ihz => simp [ihz]; omega
    simp only [List.map_cons, List.sum_cons, ih, List.countP_cons, hsplit]
    rw [← countP_eq_sum_ite]
    omega

theorem count_flatMap {α γ : Type} [BEq γ] (l : List α) (g : α → List γ) (a : γ) :
    (l.flatMap g).count a = (l.map (fun x => (g x).count a)).sum := by
  induction l with
  | nil => rfl
  | cons x rest ih => simp [List.flatMap_cons, List.count_append, ih]

theorem count_map_eq_countP {α γ : Type} [BEq γ] (l : List α) (f : α → γ) (a : γ) :
    (l.map f).count a = l.countP (fun x => f x == a) := by
  induction l with
  | nil => rfl
  | cons x rest ih =>
    simp [List.count_cons, List.countP_cons, ih]

theorem countP_eq_length_of_nodup {α : Type} [DecidableEq α] {D S : List α}
    (hD : D.Nodup) (hS : S.Nodup) (hsub : ∀ x ∈ S, x ∈ D) :
    D.countP (fun x => decide (x ∈ S)) = S.length := by
  have hperm : (D.filter (fun x => decide (x ∈ S))).Perm S := by
    apply List.perm_of_nodup_nodup_toFinset_eq (hD.filter _) hS
    ext a
    simp [List.mem_filter]
    exact fun h => hsub a h
  rw [List.countP_eq_length_filter]
  exact hperm.length_eq

theorem sum_ge_length_of_pos {l : List Nat} (h : ∀ x ∈ l, 1 ≤ x) :
    l.length ≤ l.sum := by
  induction l with
  | nil => simp
  | cons x rest ih =>
    have := h x (List.mem_cons_self _ _)
    have := ih (fun y hy => h y (List.mem_cons_of_mem _ hy))
    simp only [List.length_cons, List.sum_cons]
    omega

theorem sum_eq_length_iff_of_pos {l : List Nat} (h : ∀ x ∈ l, 1 ≤ x) :
    l.sum = l.length ↔ ∀ x ∈ l, x = 1 := by
  induction l with
  | nil => simp
  | cons x rest ih =>
    have hx := h x (List.mem_cons_self _ _)
    have hrest := sum_ge_length_of_pos (fun y hy => h y (List.mem_cons_of_mem _ hy))
    have ih' := ih (fun y hy => h y (List.mem_cons_of_mem _ hy))
    simp only [List.sum_cons, List.length_cons]
    constructor
    · intro heq
      have hx1 : x = 1 := by omega
      have hsum : rest.sum = rest.length := by omega
      intro y hy
      rcases List.mem_cons.mp hy with hy | hy
      · rw [hy, hx1]
      · exact (ih'.mp hsum) y hy
    · intro hall
      have hx1 : x = 1 := hall x (List.mem_cons_self _ _)
      have : rest.sum = rest.length := by
        apply ih'.mpr
        intro y hy
        exact hall y (List.mem_cons_of_mem _ hy)
      omega

theorem filter_fst_single {β' : Type} {l : List (String × β')} {p₀ : String × β'}
    (hnd : (l.map Prod.fst).Nodup) (hm : p₀ ∈ l) :
    l.filter (fun p => decide (p.1 = p₀.1)) = [p₀] := by
  induction l with
  | nil => cases hm
  | cons x rest ih =>
    have hx : x.1 ∉ rest.map Prod.fst := (List.nodup_cons.mp (by simpa using hnd)).1
    have hnd' : (rest.map Prod.fst).Nodup := (List.nodup_cons.mp (by simpa using hnd)).2
    rcases List.mem_cons.mp hm with hm | hm
    · subst hm
      have hnil : rest.filter (fun p => decide (p.1 = p₀.1)) = [] := by
        apply List.filter_eq_nil_iff.mpr
        intro p hp
        simp only [decide_eq_true_eq]
        intro hcontra
        exact hx (hcontra ▸ List.mem_map_of_mem Prod.fst hp)
      simp [List.filter_cons, hnil]
    · have hne : ¬ x.1 = p₀.1 := by
        intro hcontra
        exact hx (hcontra ▸ List.mem_map_of_mem Prod.fst hm)
      simp [List.filter_cons, hne, ih hnd' hm]

end FoldLemmas

/-! ## Folds of keyed dict updates

A pass of the analyzer is a `foldl` of `alUpd`s over a list of "write specs"; these
lemmas characterize the resulting dict per key. -/

section UpdFoldLemmas

variable {κ β γ : Type} [DecidableEq κ]

theorem foldl_alUpd_get_notmem (specs : List γ) (key : γ → κ) (F : γ → β → β)
    (dflt : β) (s₀ : List (κ × β)) (k : κ) (hk : ∀ c ∈ specs, key c ≠ k) :
    alGet (specs.foldl (fun s c => alUpd s dflt (key c) (F c)) s₀) dflt k
      = alGet s₀ dflt k := by
  induction specs generalizing s₀ with
  | nil => rfl
  | cons c rest ih =>
    rw [List.foldl_cons, ih _ (fun c' hc' => hk c' (List.mem_cons_of_mem _ hc'))]
    rw [alGet_alUpd, if_neg (fun h => hk c (List.mem_cons_self _ _) h.symm)]

theorem foldl_alUpd_get_mem (specs : List γ) (key : γ → κ) (F : γ → β → β)
    (dflt : β) (s₀ : List (κ × β)) (c₀ : γ)
    (hnd : (specs.map key).Nodup) (hm : c₀ ∈ specs) :
    alGet (specs.foldl (fun s c => alUpd s dflt (key c) (F c)) s₀) dflt (key c₀)
      = F c₀ (alGet s₀ dflt (key c₀)) := by
  induction specs generalizing s₀ with
  | nil => cases hm
  | cons c rest ih =>
    have hknotin : key c ∉ rest.map key := (List.nodup_cons.mp (by simpa using hnd)).1
    have hnd' : (rest.map key).Nodup := (List.nodup_cons.mp (by simpa using hnd)).2
    rcases List.mem_cons.mp hm with hm | hm
    · subst hm
      rw [List.foldl_cons]
      rw [foldl_alUpd_get_notmem rest key F dflt _ (key c₀)
        (fun c' hc' h => hknotin (h ▸ List.mem_map_of_mem key hc'))]
      rw [alGet_alUpd, if_pos rfl]
    · rw [List.foldl_cons, ih _ hnd' hm]
      congr 1
      rw [alGet_alUpd, if_neg ?_]
      intro h
      exact hknotin (h ▸ List.mem_map_of_mem key hm)

theorem mem_alKeys_foldl_alUpd (specs : List γ) (key : γ → κ) (F : γ → β → β)
    (dflt : β) (s₀ : List (κ × β)) (k : κ) :
    k ∈ alKeys (specs.foldl (fun s c => alUpd s dflt (key c) (F c)) s₀)
      ↔ k ∈ alKeys s₀ ∨ ∃ c ∈ specs, key c = k := by
  induction specs generalizing s₀ with
  | nil => simp
  | cons c rest ih =>
    rw [List.foldl_cons, ih, mem_alKeys_alUpd]
    constructor
    · rintro ((h | h) | ⟨c', hc', h⟩)
      · exact Or.inl h
      · exact Or.inr ⟨c, List.mem_cons_self _ _, h.symm⟩
      · exact Or.inr ⟨c', List.mem_cons_of_mem _ hc', h⟩
    · rintro (h | ⟨c', hc', h⟩)
      · exact Or.inl (Or.inl h)
      · rcases List.mem_cons.mp hc' with hc' | hc'
        · exact Or.inl (Or.inr (hc' ▸ h.symm))
        · exact Or.inr ⟨c', hc', h⟩

theorem alKeys_foldl_alUpd_present (specs : List γ) (key : γ → κ) (F : γ → β → β)
    (dflt : β) (s₀ : List (κ × β)) (h : ∀ c ∈ specs, key c ∈ alKeys s₀) :
    alKeys (specs.foldl (fun s c => alUpd s dflt (key c) (F c)) s₀) = alKeys s₀ := by
  induction specs generalizing s₀ with
  | nil => rfl
  | cons c rest ih =>
    have hkeys : alKeys (alUpd s₀ dflt (key c) (F c)) = alKeys s₀ := by
      rw [alKeys_alUpd, if_pos (h c (List.mem_cons_self _ _))]
    rw [List.foldl_cons,
      ih _ (fun c' hc' => hkeys.symm ▸ h c' (List.mem_cons_of_mem _ hc')), hkeys]

theorem alKeys_foldl_alUpd_fresh (specs : List γ) (key : γ → κ) (F : γ → β → β)
    (dflt : β) (s₀ : List (κ × β))
    (hnd : (specs.map key).Nodup) (hfresh : ∀ c ∈ specs, key c ∉ alKeys s₀) :
    alKeys (specs.foldl (fun s c => alUpd s dflt (key c) (F c)) s₀)
      = alKeys s₀ ++ specs.map key := by
  induction specs generalizing s₀ with
  | nil => simp
  | cons c rest ih =>
    have hupd : alKeys (alUpd s₀ dflt (key c) (F c)) = alKeys s₀ ++ [key c] := by
      rw [alKeys_alUpd, if_neg (hfresh c (List.mem_cons_self _ _))]
    have hfresh' : ∀ c' ∈ rest, key c' ∉ alKeys (alUpd s₀ dflt (key c) (F c)) := by
      intro c' hc'
      rw [hupd]
      simp only [List.mem_append, List.mem_singleton]
      rintro (h | h)
      · exact hfresh c' (List.mem_cons_of_mem _ hc') h
      · exact (List.nodup_cons.mp (by simpa using hnd)).1
          (h ▸ List.mem_map_of_mem key hc')
    rw [List.foldl_cons, ih _ ((List.nodup_cons.mp (by simpa using hnd)).2) hfresh', hupd]
    simp

theorem forall_foldl_alUpd_present {P : β → Prop} (specs : List γ) (key : γ → κ)
    (F : γ → β → β) (dflt : β) (s₀ : List (κ × β))
    (hpres : ∀ c ∈ specs, key c ∈ alKeys s₀)
    (hF : ∀ c b, P b → P (F c b)) (hP : ∀ e ∈ s₀, P e.2) :
    ∀ e ∈ specs.foldl (fun s c => alUpd s dflt (key c) (F c)) s₀, P e.2 := by
  induction specs generalizing s₀ with
  | nil => exact hP
  | cons c rest ih =>
    have hkeys : alKeys (alUpd s₀ dflt (key c) (F c)) = alKeys s₀ := by
      rw [alKeys_alUpd, if_pos (hpres c (List.mem_cons_self _ _))]
    rw [List.foldl_cons]
    exact ih _ (fun c' hc' => hkeys.symm ▸ hpres c' (List.mem_cons_of_mem _ hc'))
      (forall_alUpd_mem (hpres c (List.mem_cons_self _ _)) (hF c) hP)

theorem forall_foldl_alUpd {P : β → Prop} (specs : List γ) (key : γ → κ)
    (F : γ → β → β) (dflt : β) (s₀ : List (κ × β))
    (hF : ∀ c b, P (F c b)) (hP : ∀ e ∈ s₀, P e.2) :
    ∀ e ∈ specs.foldl (fun s c => alUpd s dflt (key c) (F c)) s₀, P e.2 := by
  induction specs generalizing s₀ with
  | nil => exact hP
  | cons c rest ih =>
    rw [List.foldl_cons]
    exact ih _ (forall_alUpd (hF c) hP)

end UpdFoldLemmas

/-! ## Pagination lemmas -/

theorem paginate_eq_drop_take {α : Type} (data : List α) (page page_size : Nat) :
    paginate_data data page page_size =
      (data.drop ((page - 1) * page_size)).take page_size := by
  unfold paginate_data
  rw [List.drop_take, List.take_eq_take, List.length_drop]
  omega

theorem paginate_join {α : Type} (s : Nat) :
    ∀ (n : Nat) (data : List α), data.length ≤ n * s →
      ((List.range n).map (fun i => paginate_data data (i + 1) s)).flatten = data := by
  intro n
  induction n with
  | zero =>
    intro data h
    have hd : data = [] := List.eq_nil_of_length_eq_zero (by omega)
    simp [hd]
  | succ m ih =>
    intro data h
    rw [List.range_succ_eq_map, List.map_cons, List.map_map, List.flatten_cons]
    have h1 : paginate_data data (0 + 1) s = data.take s := by
      rw [paginate_eq_drop_take]; simp
    have h2 : ((List.range m).map ((fun i => paginate_data data (i + 1) s) ∘ Nat.succ))
        = (List.range m).map (fun i => paginate_data (data.drop s) (i + 1) s) := by
      apply List.map_congr_left
      intro i hi
      show paginate_data data (Nat.succ i + 1) s = paginate_data (data.drop s) (i + 1) s
      rw [paginate_eq_drop_take, paginate_eq_drop_take, List.drop_drop]
      have hmul : (Nat.succ i + 1 - 1) * s = s + (i + 1 - 1) * s := by
        have : (i + 1) * s = i * s + 1 * s := Nat.add_mul i 1 s
        simpa using by omega
      rw [hmul]
    have hlen : (data.drop s).length ≤ m * s := by
      rw [List.length_drop]
      have hexp : (m + 1) * s = m * s + s := by ring
      omega
    rw [h1, h2, ih (data.drop s) hlen]
    exact List.take_append_drop s data

/-! ## Analyzer characterization: per-dataset domain counts -/

theorem alGet_foldl_incrCount (l : List String) (d : List (String × Nat)) (x : String) :
    alGet (l.foldl incrCount d) 0 x = alGet d 0 x + l.count x := by
  induction l generalizing d with
  | nil => simp
  | cons c rest ih =>
    rw [List.foldl_cons, ih]
    unfold incrCount
    rw [alGet_alUpd]
    by_cases h : x = c
    · subst h
      rw [if_pos rfl, List.count_cons]
      simp
      omega
    · have h2 : ¬ c = x := fun hh => h hh.symm
      rw [if_neg h, List.count_cons]
      simp [h, h2]

theorem mem_alKeys_foldl_incrCount (l : List String) (d : List (String × Nat))
    (x : String) :
    x ∈ alKeys (l.foldl incrCount d) ↔ x ∈ alKeys d ∨ x ∈ l := by
  induction l generalizing d with
  | nil => simp
  | cons c rest ih =>
    rw [List.foldl_cons, ih]
    unfold incrCount
    rw [mem_alKeys_alUpd]
    constructor
    · rintro ((h | h) | h)
      · exact Or.inl h
      · exact Or.inr (h ▸ List.mem_cons_self _ _)
      · exact Or.inr (List.mem_cons_of_mem _ h)
    · rintro (h | h)
      · exact Or.inl (Or.inl h)
      · rcases List.mem_cons.mp h with h | h
        · exact Or.inl (Or.inr h)
        · exact Or.inr h

theorem alGet_datasetDomainCounts (items : List DataItem) (dom : String) :
    alGet (datasetDomainCounts items) 0 dom
      = items.countP (fun it => decide (dom ∈ it.involved_classes)) := by
  suffices h : ∀ d, alGet
      (items.foldl (fun d it => (get_data_domains it).foldl incrCount d) d) 0 dom
      = alGet d 0 dom + items.countP (fun it => decide (dom ∈ it.involved_classes)) by
    have h0 := h []
    unfold datasetDomainCounts
    simpa [alGet, alGet?] using h0
  induction items with
  | nil => intro d; simp
  | cons it rest ih =>
    intro d
    rw [List.foldl_cons, ih, alGet_foldl_incrCount, List.countP_cons]
    have hcnt : (get_data_domains it).count dom
        = if dom ∈ it.involved_classes then 1 else 0 := by
      unfold get_data_domains
      rw [List.count_dedup]
    rw [hcnt]
    by_cases h : dom ∈ it.involved_classes <;> simp [h] <;> omega

theorem mem_alKeys_datasetDomainCounts (items : List DataItem) (dom : String) :
    dom ∈ alKeys (datasetDomainCounts items)
      ↔ 0 < items.countP (fun it => decide (dom ∈ it.involved_classes)) := by
  suffices h : ∀ d, dom ∈ alKeys
      (items.foldl (fun d it => (get_data_domains it).foldl incrCount d) d)
      ↔ dom ∈ alKeys d ∨ ∃ it ∈ items, dom ∈ it.involved_classes by
    have h0 := h []
    unfold datasetDomainCounts
    rw [h0]
    rw [List.countP_pos]
    simp [alKeys]
  induction items with
  | nil => intro d; simp
  | cons it rest ih =>
    intro d
    rw [List.foldl_cons, ih, mem_alKeys_foldl_incrCount]
    have hdom : dom ∈ get_data_domains it ↔ dom ∈ it.involved_classes := by
      unfold get_data_domains
      exact List.mem_dedup
    constructor
    · rintro ((h | h) | ⟨q, hq, h⟩)
      · exact Or.inl h
      · exact Or.inr ⟨it, List.mem_cons_self _ _, hdom.mp h⟩
      · exact Or.inr ⟨q, List.mem_cons_of_mem _ hq, h⟩
    · rintro (h | ⟨q, hq, h⟩)
      · exact Or.inl (Or.inl h)
      · rcases List.mem_cons.mp hq with hq | hq
        · exact Or.inl (Or.inr (hdom.mpr (hq ▸ h)))
        · exact Or.inr ⟨q, hq, h⟩

theorem nodup_alKeys_datasetDomainCounts (items : List DataItem) :
    (alKeys (datasetDomainCounts items)).Nodup := by
  unfold datasetDomainCounts
  refine foldl_invariant (fun d it => (get_data_domains it).foldl incrCount d)
    (fun d => (alKeys d).Nodup) items ?_ [] (by simp [alKeys])
  intro d it _ hd
  refine foldl_invariant incrCount (fun d => (alKeys d).Nodup) (get_data_domains it)
    ?_ d hd
  intro d' x _ hd'
  exact nodup_alKeys_alUpd d' 0 x (fun n => n + 1) hd'

theorem pos_values_datasetDomainCounts (items : List DataItem) :
    ∀ e ∈ datasetDomainCounts items, 0 < e.2 := by
  unfold datasetDomainCounts
  refine foldl_invariant (fun d it => (get_data_domains it).foldl incrCount d)
    (fun d => ∀ e ∈ d, 0 < e.2) items ?_ [] (by intro e he; cases he)
  intro d it _ hd
  refine foldl_invariant incrCount (fun d => ∀ e ∈ d, 0 < e.2) (get_data_domains it)
    ?_ d hd
  intro d' x _ hd'
  show ∀ e ∈ alUpd d' 0 x (fun n => n + 1), 0 < e.2
  exact forall_alUpd (fun b => Nat.succ_pos b) hd' 

theorem mem_datasetDomainCounts_val (items : List DataItem) {dom : String} {c : Nat}
    (hm : (dom, c) ∈ datasetDomainCounts items) :
    c = items.countP (fun it => decide (dom ∈ it.involved_classes)) := by
  have h1 := alGet?_of_mem_nodup (nodup_alKeys_datasetDomainCounts items) hm
  have h2 := alGet_datasetDomainCounts items dom
  unfold alGet at h2
  rw [h1] at h2
  simpa using h2

/-! ## Analyzer characterization: all models -/

theorem mem_addModel {acc : List String} {m x : String} :
    x ∈ addModel acc m ↔ x ∈ acc ∨ x = m := by
  unfold addModel
  by_cases h : m ∈ acc
  · simp only [if_pos h]
    constructor
    · exact Or.inl
    · rintro (hx | rfl)
      · exact hx
      · exact h
  · simp [if_neg h]

theorem nodup_allModels (df : DataFiles) (sfs : List ScoreFile) :
    (allModels df sfs).Nodup := by
  unfold allModels
  refine foldl_invariant
    (fun acc p => (sfs.filter (fun sf => sf.dataset = p.1)).foldl
      (fun a sf => addModel a sf.model) acc)
    (fun acc => acc.Nodup) df ?_ [] List.nodup_nil
  intro acc p _ hacc
  refine foldl_invariant (fun a sf => addModel a sf.model) (fun acc => acc.Nodup)
    (sfs.filter (fun sf => sf.dataset = p.1)) ?_ acc hacc
  intro a sf _ ha
  show (addModel a sf.model).Nodup
  unfold addModel
  by_cases h : sf.model ∈ a
  · simpa [h] using ha
  · rw [if_neg h]
    refine List.Nodup.append ha (List.nodup_singleton _) ?_
    intro x hx hx2
    rcases List.mem_singleton.mp hx2 with rfl
    exact h hx

theorem mem_foldl_addModel_mono {L : List ScoreFile} {acc : List String} {x : String}
    (h : x ∈ acc) : x ∈ L.foldl (fun a sf => addModel a sf.model) acc :=
  foldl_invariant _ (fun a => x ∈ a) L
    (fun a sf _ ha => mem_addModel.mpr (Or.inl ha)) acc h

theorem mem_foldl_addModel_hit {L : List ScoreFile} {acc : List String} {sf : ScoreFile}
    (h : sf ∈ L) : sf.model ∈ L.foldl (fun a sf => addModel a sf.model) acc := by
  induction L generalizing acc with
  | nil => cases h
  | cons g rest ih =>
    rw [List.foldl_cons]
    rcases List.mem_cons.mp h with h | h
    · subst h
      exact mem_foldl_addModel_mono (mem_addModel.mpr (Or.inr rfl))
    · exact ih h

theorem mem_allModels_of (df : DataFiles) (sfs : List ScoreFile) {p : String × List DataItem}
    {sf : ScoreFile} (hp : p ∈ df) (hsf : sf ∈ sfs) (hds : sf.dataset = p.1) :
    sf.model ∈ allModels df sfs := by
  unfold allModels
  have key : ∀ (l : List (String × List DataItem)) (acc : List String), p ∈ l →
      sf.model ∈ l.foldl (fun acc p =>
        (sfs.filter (fun g => g.dataset = p.1)).foldl
          (fun a g => addModel a g.model) acc) acc := by
    intro l
    induction l with
    | nil => intro acc hp; cases hp
    | cons q rest ih =>
      intro acc hp
      rw [List.foldl_cons]
      rcases List.mem_cons.mp hp with hq | hq
      · subst hq
        refine foldl_invariant _ (fun a => sf.model ∈ a) rest
          (fun a r _ ha => mem_foldl_addModel_mono ha) _ ?_
        exact mem_foldl_addModel_hit (List.mem_filter.mpr ⟨hsf, by simp [hds]⟩)
      · exact ih _ hq
  exact key df [] hp

/-! ## Analyzer characterization: pass structure -/

theorem initPass_eq_foldl (df : DataFiles) (models : List String) :
    initPass df models
      = (initSpecs df models).foldl (fun s c => statSetTotal s c.1 c.2) [] := by
  unfold initPass initSpecs
  simp only [foldl_flatMap, List.foldl_map]

theorem failPass_eq (df : DataFiles) (sfs : List ScoreFile) (s0 : StatsMap) :
    failPass df sfs s0 = (failStats df sfs s0, failDStats df sfs) := by
  unfold failPass failStats failDStats
  refine foldl_prod_split _
    (fun s p => (sfs.filter (fun sf => sf.dataset = p.1)).foldl
      (fun s2 sf => (sf.recs.drop 1).foldl (procFail p.2 sf.model p.1) s2) s)
    (fun d p => (sfs.filter (fun sf => sf.dataset = p.1)).foldl
      (dstep (datasetTotals df) p.1) d)
    df ?_ (s0, [])
  intro acc p _
  exact foldl_prod_split _
    (fun s2 sf => (sf.recs.drop 1).foldl (procFail p.2 sf.model p.1) s2)
    (fun d2 sf => dstep (datasetTotals df) p.1 d2 sf)
    _ (fun acc2 sf _ => rfl) acc

theorem failStats_eq_foldl (df : DataFiles) (sfs : List ScoreFile) (s0 : StatsMap) :
    failStats df sfs s0
      = (failSpecs df sfs).foldl (fun s c => statIncFail s c.1 c.2) s0 := by
  unfold failStats failSpecs procFail
  simp only [foldl_flatMap, List.foldl_map]

/-! ## Analyzer characterization: per-key effect of the two passes -/

theorem statSetTotal_foldl_failed (specs : List (SKey × Nat)) (s₀ : StatsMap) (k : SKey) :
    (statGet (specs.foldl (fun s c => statSetTotal s c.1 c.2) s₀) k).failed_instances
      = (statGet s₀ k).failed_instances := by
  induction specs generalizing s₀ with
  | nil => rfl
  | cons c rest ih =>
    rw [List.foldl_cons, ih]
    unfold statSetTotal statGet
    rw [alGet_alUpd]
    by_cases hk : k = c.1
    · rw [if_pos hk, hk]
    · rw [if_neg hk]

theorem statSetTotal_foldl_rate (specs : List (SKey × Nat)) (s₀ : StatsMap) (k : SKey) :
    (statGet (specs.foldl (fun s c => statSetTotal s c.1 c.2) s₀) k).success_rate
      = (statGet s₀ k).success_rate := by
  induction specs generalizing s₀ with
  | nil => rfl
  | cons c rest ih =>
    rw [List.foldl_cons, ih]
    unfold statSetTotal statGet
    rw [alGet_alUpd]
    by_cases hk : k = c.1
    · rw [if_pos hk, hk]
    · rw [if_neg hk]

theorem statIncFail_foldl_failed (specs : List (SKey × String)) (s₀ : StatsMap) (k : SKey) :
    (statGet (specs.foldl (fun s c => statIncFail s c.1 c.2) s₀) k).failed_instances
      = (statGet s₀ k).failed_instances + (specs.map Prod.fst).count k := by
  induction specs generalizing s₀ with
  | nil => simp
  | cons c rest ih =>
    rw [List.foldl_cons, ih]
    unfold statIncFail statGet
    rw [alGet_alUpd]
    rw [List.map_cons, List.count_cons]
    by_cases hk : k = c.1
    · rw [if_pos hk, hk]
      simp
      omega
    · rw [if_neg hk]
      have h2 : ¬ c.1 = k := fun hh => hk hh.symm
      simp [h2]

theorem statIncFail_foldl_total (specs : List (SKey × String)) (s₀ : StatsMap) (k : SKey) :
    (statGet (specs.foldl (fun s c => statIncFail s c.1 c.2) s₀) k).total_instances
      = (statGet s₀ k).total_instances := by
  induction specs generalizing s₀ with
  | nil => rfl
  | cons c rest ih =>
    rw [List.foldl_cons, ih]
    unfold statIncFail statGet
    rw [alGet_alUpd]
    by_cases hk : k = c.1
    · rw [if_pos hk, hk]
    · rw [if_neg hk]

theorem statIncFail_foldl_rate (specs : List (SKey × String)) (s₀ : StatsMap) (k : SKey) :
    (statGet (specs.foldl (fun s c => statIncFail s c.1 c.2) s₀) k).success_rate
      = (statGet s₀ k).success_rate := by
  induction specs generalizing s₀ with
  | nil => rfl
  | cons c rest ih =>
    rw [List.foldl_cons, ih]
    unfold statIncFail statGet
    rw [alGet_alUpd]
    by_cases hk : k = c.1
    · rw [if_pos hk, hk]
    · rw [if_neg hk]

/-! ## Small helpers for matched domains and sums -/

theorem getMatchedDomains_subset {items : List DataItem} {r : ScoreRec} {dom : String}
    (h : dom ∈ getMatchedDomains items r) :
    ∃ q ∈ items, dom ∈ q.involved_classes := by
  unfold getMatchedDomains at h
  cases hid : r.id with
  | none => rw [hid] at h; simp at h
  | some i =>
    rw [hid] at h
    simp only [] at h
    by_cases hi : i = ""
    · rw [if_pos hi] at h; simp at h
    · rw [if_neg hi] at h
      cases hq : lookupById items i with
      | none => rw [hq] at h; simp at h
      | some q =>
        rw [hq] at h
        simp only [] at h
        refine ⟨q, ?_, ?_⟩
        · unfold lookupById at hq
          exact (List.mem_filter.mp (List.mem_of_getLast?_eq_some hq)).1
        · unfold get_data_domains at h
          exact List.mem_dedup.mp h

theorem count_getMatchedDomains (items : List DataItem) (r : ScoreRec) (dom : String) :
    (getMatchedDomains items r).count dom
      = if matchesFailure items dom r then 1 else 0 := by
  unfold matchesFailure
  unfold getMatchedDomains
  cases hid : r.id with
  | none => simp
  | some i =>
    simp only []
    by_cases hi : i = ""
    · simp [hi]
    · simp only [if_neg hi]
      cases hq : lookupById items i with
      | none => simp
      | some q =>
        simp only []
        unfold get_data_domains
        rw [List.count_dedup]
        by_cases h : dom ∈ q.involved_classes <;> simp [h, List.mem_dedup]

theorem sum_map_add {α M : Type} [AddCommMonoid M] (l : List α) (f g : α → M) :
    (l.map (fun y => f y + g y)).sum = (l.map f).sum + (l.map g).sum := by
  induction l with
  | nil => simp
  | cons x rest ih =>
    simp only [List.map_cons, List.sum_cons, ih]
    rw [add_assoc, add_assoc]
    congr 1
    rw [← add_assoc, ← add_assoc, add_comm (g x)]

theorem countP_flatMap {α γ : Type} (l : List α) (g : α → List γ) (p : γ → Bool) :
    (l.flatMap g).countP p = (l.map (fun x => (g x).countP p)).sum := by
  induction l with
  | nil => rfl
  | cons x rest ih => simp [List.flatMap_cons, List.countP_append, ih]

theorem alUpd_append_fresh {κ β : Type} [DecidableEq κ] (acc : List (κ × β)) (dflt : β)
    (k : κ) (v : β) (f : β → β) (h : k ∉ alKeys acc) :
    alUpd (acc ++ [(k, v)]) dflt k f = acc ++ [(k, f v)] := by
  induction acc with
  | nil => simp [alUpd]
  | cons e rest ih =>
    have he : e.1 ≠ k := by
      intro hcontra
      exact h (by simp [alKeys, hcontra])
    have h' : k ∉ alKeys rest := by
      intro hcontra
      exact h (by simp [alKeys] at hcontra ⊢; exact Or.inr hcontra)
    simp only [List.cons_append, alUpd, if_neg he]
    rw [show rest.append [(k, v)] = rest ++ [(k, v)] from rfl, ih h']

theorem foldl_congr_mem {σ α : Type} {l : List α} {f g : σ → α → σ}
    (h : ∀ s x, x ∈ l → f s x = g s x) : ∀ s, l.foldl f s = l.foldl g s := by
  induction l with
  | nil => intro s; rfl
  | cons x rest ih =>
    intro s
    rw [List.foldl_cons, List.foldl_cons, h s x (List.mem_cons_self _ _)]
    exact ih (fun s' y hy => h s' y (List.mem_cons_of_mem _ hy)) _

/-! ## Analyzer characterization: the initialization pass -/

theorem mem_entry_of_nodup_fst {β' : Type} {l : List (String × β')} {a b : String × β'}
    (hnd : (l.map Prod.fst).Nodup) (ha : a ∈ l) (hb : b ∈ l) (hab : b.1 = a.1) :
    b = a := by
  have hfil := filter_fst_single hnd ha
  have : b ∈ l.filter (fun p => decide (p.1 = a.1)) :=
    List.mem_filter.mpr ⟨hb, by simp [hab]⟩
  rw [hfil] at this
  exact List.mem_singleton.mp this

theorem exists_initSpecs_key (df : DataFiles) (models : List String)
    (m ds dom : String) :
    (∃ c ∈ initSpecs df models, c.1 = ((m, ds, dom) : SKey))
      ↔ m ∈ models ∧ ∃ items, (ds, items) ∈ df
          ∧ 0 < items.countP (fun it => decide (dom ∈ it.involved_classes)) := by
  unfold initSpecs
  constructor
  · rintro ⟨c, hc, hkey⟩
    rw [List.mem_flatMap] at hc
    obtain ⟨p, hp, hc⟩ := hc
    rw [List.mem_flatMap] at hc
    obtain ⟨m', hm', hc⟩ := hc
    rw [List.mem_map] at hc
    obtain ⟨dc, hdc, rfl⟩ := hc
    obtain ⟨h1, h2, h3⟩ : m' = m ∧ p.1 = ds ∧ dc.1 = dom := by
      simpa [Prod.ext_iff] using hkey
    refine ⟨h1 ▸ hm', p.2, ?_, ?_⟩
    · rw [← h2]
      exact hp
    · rw [← h3, ← mem_alKeys_datasetDomainCounts]
      exact List.mem_map_of_mem Prod.fst hdc
  · rintro ⟨hm, items, hmem, hpos⟩
    have hdom : dom ∈ alKeys (datasetDomainCounts items) :=
      (mem_alKeys_datasetDomainCounts items dom).mpr hpos
    obtain ⟨dc, hdc, hfst⟩ := List.mem_map.mp hdom
    refine ⟨(((m, ds, dom) : SKey), dc.2), ?_, rfl⟩
    rw [List.mem_flatMap]
    refine ⟨(ds, items), hmem, ?_⟩
    rw [List.mem_flatMap]
    refine ⟨m, hm, ?_⟩
    rw [List.mem_map]
    exact ⟨dc, hdc, by rw [hfst]⟩

theorem nodup_initSpecs_keys (df : DataFiles) (models : List String)
    (hnd : (df.map Prod.fst).Nodup) (hmodels : models.Nodup) :
    ((initSpecs df models).map Prod.fst).Nodup := by
  unfold initSpecs
  rw [List.map_flatMap]
  rw [List.nodup_flatMap]
  constructor
  · intro p hp
    rw [List.map_flatMap]
    rw [List.nodup_flatMap]
    constructor
    · intro m hm
      rw [List.map_map]
      have hmap : (List.map (Prod.fst ∘ fun dc => (((m, p.1, dc.1) : SKey), dc.2))
            (datasetDomainCounts p.2))
          = (List.map Prod.fst (datasetDomainCounts p.2)).map
              (fun k => ((m, p.1, k) : SKey)) := by
        rw [List.map_map]
        rfl
      rw [hmap]
      refine List.Nodup.map ?_ (nodup_alKeys_datasetDomainCounts p.2)
      intro a b hab
      simpa [Prod.ext_iff] using hab
    · refine List.Pairwise.imp ?_ hmodels
      intro m₁ m₂ hne k hk1 hk2
      simp only [List.mem_map, List.mem_flatMap] at hk1 hk2
      obtain ⟨dc1, ⟨a1, ha1, rfl⟩, rfl⟩ := hk1
      obtain ⟨dc2, ⟨a2, ha2, hkeq⟩, hkey2⟩ := hk2
      rw [← hkeq] at hkey2
      simp only [Prod.ext_iff] at hkey2
      exact hne hkey2.1.symm
  · have hpw : df.Pairwise (fun p q => p.1 ≠ q.1) := by
      rw [← List.pairwise_map (f := Prod.fst)]
      exact hnd
    refine List.Pairwise.imp ?_ hpw
    intro p q hne k hk1 hk2
    simp only [List.mem_map, List.mem_flatMap] at hk1 hk2
    obtain ⟨dc1, ⟨m1, hm1, a1, ha1, rfl⟩, rfl⟩ := hk1
    obtain ⟨dc2, ⟨m2, hm2, a2, ha2, hkeq⟩, hkey2⟩ := hk2
    rw [← hkeq] at hkey2
    simp only [Prod.ext_iff] at hkey2
    exact hne hkey2.2.1.symm

theorem mem_alKeys_initPass (df : DataFiles) (models : List String) (m ds dom : String) :
    ((m, ds, dom) : SKey) ∈ alKeys (initPass df models)
      ↔ m ∈ models ∧ ∃ items, (ds, items) ∈ df
          ∧ 0 < items.countP (fun it => decide (dom ∈ it.involved_classes)) := by
  rw [initPass_eq_foldl]
  have hgen := mem_alKeys_foldl_alUpd (initSpecs df models) (fun c => c.1)
    (fun c st => { st with total_instances := c.2 }) dfltStat [] ((m, ds, dom) : SKey)
  have h2 : (((m, ds, dom) : SKey) ∈ alKeys ([] : StatsMap)
        ∨ ∃ c ∈ initSpecs df models, c.1 = ((m, ds, dom) : SKey))
      ↔ ∃ c ∈ initSpecs df models, c.1 = ((m, ds, dom) : SKey) := by
    simp [alKeys]
  exact hgen.trans (h2.trans (exists_initSpecs_key df models m ds dom))

theorem statGet_initPass (df : DataFiles) (models : List String)
    (hnd : (df.map Prod.fst).Nodup) (hmodels : models.Nodup)
    (m ds dom : String) (items : List DataItem) (hmem : (ds, items) ∈ df) :
    statGet (initPass df models) (m, ds, dom)
      = if m ∈ models ∧ 0 < items.countP (fun it => decide (dom ∈ it.involved_classes))
        then { dfltStat with
                total_instances := items.countP (fun it => decide (dom ∈ it.involved_classes)) }
        else dfltStat := by
  rw [initPass_eq_foldl]
  by_cases hcond : m ∈ models
      ∧ 0 < items.countP (fun it => decide (dom ∈ it.involved_classes))
  · rw [if_pos hcond]
    obtain ⟨hm, hpos⟩ := hcond
    have hdom : dom ∈ alKeys (datasetDomainCounts items) :=
      (mem_alKeys_datasetDomainCounts items dom).mpr hpos
    obtain ⟨dc, hdc, hfst⟩ := List.mem_map.mp hdom
    have hspec : ((((m, ds, dom) : SKey), dc.2)) ∈ initSpecs df models := by
      unfold initSpecs
      rw [List.mem_flatMap]
      refine ⟨(ds, items), hmem, ?_⟩
      rw [List.mem_flatMap]
      refine ⟨m, hm, ?_⟩
      rw [List.mem_map]
      exact ⟨dc, hdc, by rw [hfst]⟩
    have hval : dc.2 = items.countP (fun it => decide (dom ∈ it.involved_classes)) := by
      have hdc' : (dom, dc.2) ∈ datasetDomainCounts items := by
        rw [← hfst]
        exact hdc
      exact mem_datasetDomainCounts_val items hdc'
    have hget := foldl_alUpd_get_mem (initSpecs df models)
      (fun c : SKey × Nat => c.1)
      (fun (c : SKey × Nat) (st : DomainStat) => { st with total_instances := c.2 })
      dfltStat [] ((((m, ds, dom) : SKey), dc.2))
      (nodup_initSpecs_keys df models hnd hmodels) hspec
    rw [hval] at hget
    exact hget
  · rw [if_neg hcond]
    have hnot : ∀ c ∈ initSpecs df models, c.1 ≠ ((m, ds, dom) : SKey) := by
      intro c hc hkey
      obtain ⟨hm, items', hmem', hpos'⟩ :=
        (exists_initSpecs_key df models m ds dom).mp ⟨c, hc, hkey⟩
      have heq : ((ds, items') : String × List DataItem) = (ds, items) :=
        mem_entry_of_nodup_fst hnd hmem hmem' rfl
      have : items' = items := by
        have := congrArg Prod.snd heq
        simpa using this
      exact hcond ⟨hm, this ▸ hpos'⟩
    have hget := foldl_alUpd_get_notmem (initSpecs df models)
      (fun c : SKey × Nat => c.1)
      (fun (c : SKey × Nat) (st : DomainStat) => { st with total_instances := c.2 })
      dfltStat [] ((m, ds, dom) : SKey) hnot
    exact hget

theorem failed_initPass (df : DataFiles) (models : List String) (k : SKey) :
    (statGet (initPass df models) k).failed_instances = 0 := by
  rw [initPass_eq_foldl, statSetTotal_foldl_failed]
  rfl

theorem rate_initPass (df : DataFiles) (models : List String) (k : SKey) :
    (statGet (initPass df models) k).success_rate = 0 := by
  rw [initPass_eq_foldl, statSetTotal_foldl_rate]
  rfl

/-! ## Analyzer characterization: the failure pass and the final result -/

theorem failSpecs_key_mem (df : DataFiles) (sfs : List ScoreFile) :
    ∀ c ∈ failSpecs df sfs, c.1 ∈ alKeys (initPass df (allModels df sfs)) := by
  intro c hc
  unfold failSpecs at hc
  rw [List.mem_flatMap] at hc
  obtain ⟨p, hp, hc⟩ := hc
  rw [List.mem_flatMap] at hc
  obtain ⟨sf, hsf, hc⟩ := hc
  rw [List.mem_flatMap] at hc
  obtain ⟨r, hr, hc⟩ := hc
  rw [List.mem_map] at hc
  obtain ⟨dom, hdom, rfl⟩ := hc
  obtain ⟨q, hq, hqdom⟩ := getMatchedDomains_subset hdom
  have hsf' := List.mem_filter.mp hsf
  refine (mem_alKeys_initPass df (allModels df sfs) sf.model p.1 dom).mpr ?_
  refine ⟨mem_allModels_of df sfs hp hsf'.1 (by simpa using hsf'.2), p.2, hp, ?_⟩
  rw [List.countP_pos]
  exact ⟨q, hq, by simp [hqdom]⟩

theorem alKeys_failStats (df : DataFiles) (sfs : List ScoreFile) :
    alKeys (failStats df sfs (initPass df (allModels df sfs)))
      = alKeys (initPass df (allModels df sfs)) := by
  rw [failStats_eq_foldl]
  exact alKeys_foldl_alUpd_present (failSpecs df sfs) (fun c => c.1)
    (fun c st =>
      { st with failed_instances := st.failed_instances + 1,
                error_types := incrCount st.error_types c.2 })
    dfltStat _ (failSpecs_key_mem df sfs)

theorem rateify_dflt : rateify dfltStat = dfltStat := rfl

theorem rateifyD_dflt : rateifyD dfltDStat = dfltDStat := rfl

theorem rateify_failed (st : DomainStat) :
    (rateify st).failed_instances = st.failed_instances := by
  unfold rateify
  split <;> rfl

theorem rateify_total (st : DomainStat) :
    (rateify st).total_instances = st.total_instances := by
  unfold rateify
  split <;> rfl

theorem rateifyD_failed (st : DatasetStat) :
    (rateifyD st).failed_instances = st.failed_instances := by
  unfold rateifyD
  split <;> rfl

theorem rateifyD_total (st : DatasetStat) :
    (rateifyD st).total_instances = st.total_instances := by
  unfold rateifyD
  split <;> rfl

theorem analyze_stats_eq (df : DataFiles) (sfs : List ScoreFile) :
    (analyze_domain_performance df sfs).domain_stats_by_model_dataset
      = mapVals rateify (failStats df sfs (initPass df (allModels df sfs))) := by
  simp only [analyze_domain_performance, failPass_eq]

theorem analyze_dstats_eq (df : DataFiles) (sfs : List ScoreFile) :
    (analyze_domain_performance df sfs).dataset_stats
      = mapVals rateifyD (failDStats df sfs) := by
  simp only [analyze_domain_performance, failPass_eq]

theorem statGet_analyze (df : DataFiles) (sfs : List ScoreFile) (k : SKey) :
    statGet (analyze_domain_performance df sfs).domain_stats_by_model_dataset k
      = rateify (statGet (failStats df sfs (initPass df (allModels df sfs))) k) := by
  rw [analyze_stats_eq]
  unfold statGet
  exact alGet_mapVals rateify_dflt _ k

theorem countP_decide_eq_count {α : Type} [DecidableEq α] [BEq α] [LawfulBEq α]
    (l : List α) (a : α) :
    l.countP (fun x => decide (x = a)) = l.count a := by
  induction l with
  | nil => rfl
  | cons x rest ih =>
    by_cases h : x = a <;> simp [List.countP_cons, List.count_cons, h, ih]

theorem count_failSpecs_block (items : List DataItem) (ds m dom : String)
    (sf : ScoreFile) :
    (List.map Prod.fst ((sf.recs.drop 1).flatMap (fun r =>
        (getMatchedDomains items r).map (fun d =>
          (((sf.model, ds, d) : SKey), r.error_type.getD "unknown"))))).count
        ((m, ds, dom) : SKey)
      = if sf.model = m then failCount items sf.recs dom else 0 := by
  rw [List.map_flatMap]
  rw [count_flatMap]
  unfold failCount
  by_cases hm : sf.model = m
  · rw [if_pos hm]
    rw [countP_eq_sum_ite]
    congr 1
    apply List.map_congr_left
    intro r hr
    rw [List.map_map, count_map_eq_countP]
    have hcongr : (getMatchedDomains items r).countP
          (fun d => (Prod.fst ∘ fun d =>
            (((sf.model, ds, d) : SKey), r.error_type.getD "unknown")) d == (m, ds, dom))
        = (getMatchedDomains items r).countP (fun d => decide (d = dom)) := by
      apply List.countP_congr
      intro d _
      by_cases h : d = dom <;> simp [h, hm, Prod.ext_iff]
    rw [hcongr, countP_decide_eq_count, count_getMatchedDomains]
  · rw [if_neg hm]
    apply List.sum_eq_zero
    intro x hx
    rcases List.mem_map.mp hx with ⟨r, hr, rfl⟩
    rw [List.map_map]
    rw [List.count_eq_zero]
    intro hmem
    rcases List.mem_map.mp hmem with ⟨d, hd, hkey⟩
    have : sf.model = m := by
      have := congrArg (fun k : SKey => k.1) hkey
      simpa using this
    exact hm this

theorem count_failSpecs_keys (df : DataFiles) (sfs : List ScoreFile)
    (hnd : (df.map Prod.fst).Nodup) (m ds dom : String) (items : List DataItem)
    (hmem : (ds, items) ∈ df) :
    ((failSpecs df sfs).map Prod.fst).count ((m, ds, dom) : SKey)
      = ((sfs.filter (fun sf => decide (sf.model = m) && decide (sf.dataset = ds))).map
          (fun sf => failCount items sf.recs dom)).sum := by
  unfold failSpecs
  rw [List.map_flatMap, count_flatMap]
  rw [sum_map_single
      (fun p => (List.map Prod.fst
        ((sfs.filter (fun sf => sf.dataset = p.1)).flatMap (fun sf =>
          (sf.recs.drop 1).flatMap (fun r =>
            (getMatchedDomains p.2 r).map (fun d =>
              (((sf.model, p.1, d) : SKey), r.error_type.getD "unknown")))))).count
        ((m, ds, dom) : SKey))
      Prod.fst hnd hmem ?side]
  case side =>
    intro p hp hne
    rw [List.count_eq_zero]
    intro hmem2
    rcases List.mem_map.mp hmem2 with ⟨c, hc, hkey⟩
    rw [List.mem_flatMap] at hc
    obtain ⟨sf, _, hc⟩ := hc
    rw [List.mem_flatMap] at hc
    obtain ⟨r, _, hc⟩ := hc
    rcases List.mem_map.mp hc with ⟨d, _, rfl⟩
    have : p.1 = ds := by
      have := congrArg (fun k : SKey => k.2.1) hkey
      simpa using this
    exact hne this
  · rw [List.map_flatMap, count_flatMap]
    have hblocks : ∀ sf ∈ sfs.filter (fun sf => sf.dataset = ds),
        (List.map Prod.fst ((sf.recs.drop 1).flatMap (fun r =>
          (getMatchedDomains items r).map (fun d =>
            (((sf.model, ds, d) : SKey), r.error_type.getD "unknown"))))).count
          ((m, ds, dom) : SKey)
        = if decide (sf.model = m) = true then failCount items sf.recs dom else 0 := by
      intro sf _
      rw [count_failSpecs_block]
      by_cases h : sf.model = m <;> simp [h]
    rw [List.map_congr_left hblocks]
    rw [sum_map_ite_filter]
    rw [List.filter_filter]

theorem forall_alUpd_preserve {κ β : Type} [DecidableEq κ] (P : β → Prop)
    {d : List (κ × β)} {dflt : β} {k : κ} {f : β → β}
    (hf : ∀ b, P b → P (f b)) (hdflt : P dflt) (hP : ∀ e ∈ d, P e.2) :
    ∀ e ∈ alUpd d dflt k f, P e.2 := by
  induction d with
  | nil =>
    simp [alUpd]
    exact hf dflt hdflt
  | cons e rest ih =>
    by_cases he : e.1 = k
    · intro e' he'
      simp [alUpd, he] at he'
      rcases he' with he' | he'
      · rw [he']; exact hf _ (hP e (List.mem_cons_self _ _))
      · exact hP e' (List.mem_cons_of_mem _ he')
    · intro e' he'
      simp only [alUpd, if_neg he] at he'
      rcases List.mem_cons.mp he' with he' | he'
      · rw [he']; exact hP e (List.mem_cons_self _ _)
      · exact ih (fun x hx => hP x (List.mem_cons_of_mem _ hx)) e' he'

theorem forall_foldl_alUpd_preserve {κ β γ : Type} [DecidableEq κ] (P : β → Prop)
    (specs : List γ) (key : γ → κ) (F : γ → β → β) (dflt : β) (s₀ : List (κ × β))
    (hF : ∀ c b, P b → P (F c b)) (hdflt : P dflt) (hP : ∀ e ∈ s₀, P e.2) :
    ∀ e ∈ specs.foldl (fun s c => alUpd s dflt (key c) (F c)) s₀, P e.2 := by
  induction specs generalizing s₀ with
  | nil => exact hP
  | cons c rest ih =>
    rw [List.foldl_cons]
    exact ih _ (forall_alUpd_preserve P (hF c) hdflt hP)

theorem rate0_failStats (df : DataFiles) (sfs : List ScoreFile) :
    ∀ e ∈ failStats df sfs (initPass df (allModels df sfs)), e.2.success_rate = 0 := by
  rw [failStats_eq_foldl, initPass_eq_foldl]
  refine forall_foldl_alUpd_preserve (fun st => st.success_rate = 0)
    (failSpecs df sfs) (fun c => c.1)
    (fun c st =>
      { st with failed_instances := st.failed_instances + 1,
                error_types := incrCount st.error_types c.2 })
    dfltStat _ (fun c b hb => hb) rfl ?_
  refine forall_foldl_alUpd_preserve (fun st => st.success_rate = 0)
    (initSpecs df (allModels df sfs)) (fun c => c.1)
    (fun c st => { st with total_instances := c.2 })
    dfltStat [] (fun c b hb => hb) rfl ?_
  intro e he
  cases he

theorem dstep_rate0 (dt : List (String × Nat)) (ds : String) (d : DStats) (sf : ScoreFile)
    (h : ∀ e ∈ d, e.2.success_rate = 0) : ∀ e ∈ dstep dt ds d sf, e.2.success_rate = 0 := by
  show ∀ e ∈ alUpd
    (if (ds ++ "_" ++ sf.model) ∈ alKeys d then d
     else d ++ [(ds ++ "_" ++ sf.model, { total_instances := alGet dt 0 ds })])
    dfltDStat (ds ++ "_" ++ sf.model)
    (fun st => { st with failed_instances := summaryFailed sf.recs }), e.2.success_rate = 0
  refine forall_alUpd_preserve (fun (st : DatasetStat) => st.success_rate = 0)
    (fun b hb => hb) rfl ?_
  by_cases hk : (ds ++ "_" ++ sf.model) ∈ alKeys d
  · rw [if_pos hk]
    exact h
  · rw [if_neg hk]
    intro e he
    rcases List.mem_append.mp he with he | he
    · exact h e he
    · rcases List.mem_singleton.mp he with rfl
      rfl

theorem rate0_failDStats (df : DataFiles) (sfs : List ScoreFile) :
    ∀ e ∈ failDStats df sfs, e.2.success_rate = 0 := by
  unfold failDStats
  refine foldl_invariant
    (fun d p => (sfs.filter (fun sf => sf.dataset = p.1)).foldl
      (dstep (datasetTotals df) p.1) d)
    (fun d => ∀ e ∈ d, e.2.success_rate = 0) df ?_ [] (by intro e he; cases he)
  intro d p _ hd
  refine foldl_invariant (dstep (datasetTotals df) p.1)
    (fun d => ∀ e ∈ d, e.2.success_rate = 0) _ ?_ d hd
  intro d' sf _ hd'
  exact dstep_rate0 _ _ _ _ hd'

theorem cond_of_mem_analyze_keys (df : DataFiles) (sfs : List ScoreFile)
    (hnd : (df.map Prod.fst).Nodup) (m ds dom : String) (items : List DataItem)
    (hmem : (ds, items) ∈ df)
    (hkey : ((m, ds, dom) : SKey)
      ∈ alKeys (analyze_domain_performance df sfs).domain_stats_by_model_dataset) :
    m ∈ allModels df sfs
      ∧ 0 < items.countP (fun it => decide (dom ∈ it.involved_classes)) := by
  rw [analyze_stats_eq, alKeys_mapVals, alKeys_failStats] at hkey
  obtain ⟨hm, items', hmem', hpos⟩ :=
    (mem_alKeys_initPass df (allModels df sfs) m ds dom).mp hkey
  have heq : ((ds, items') : String × List DataItem) = (ds, items) :=
    mem_entry_of_nodup_fst hnd hmem hmem' rfl
  have hitems : items' = items := by
    have := congrArg Prod.snd heq
    simpa using this
  exact ⟨hm, hitems ▸ hpos⟩

/-! ## Claim theorems -/

/-- Claim C1 (amended): for every `(model, dataset, domain)` entry produced by
`analyze_domain_performance`, `total_instances` equals the number of questions in that
dataset whose `involved_classes` contain the domain; and the entry's
`failed_instances` is the number of failure records of that model's score file for
that dataset whose `id` is a non-empty string matching a question (last match wins)
whose domains contain the domain — i.e. each such record increments the counter of
every domain of its question.  (The claim as frozen fails only on failure records
whose `id` is the empty string: Python's falsiness test at line 182 skips them even
when a question with id `""` exists; see the counterexample.) -/
theorem C1_totals_and_failures (df : DataFiles) (sfs : List ScoreFile)
    (hnd : (df.map Prod.fst).Nodup) (m ds dom : String) (items : List DataItem)
    (hmem : (ds, items) ∈ df)
    (hkey : ((m, ds, dom) : SKey)
      ∈ alKeys (analyze_domain_performance df sfs).domain_stats_by_model_dataset) :
    (statGet (analyze_domain_performance df sfs).domain_stats_by_model_dataset
        (m, ds, dom)).total_instances
        = items.countP (fun it => decide (dom ∈ it.involved_classes))
      ∧ (statGet (analyze_domain_performance df sfs).domain_stats_by_model_dataset
          (m, ds, dom)).failed_instances
        = ((sfs.filter (fun sf => decide (sf.model = m) && decide (sf.dataset = ds))).map
            (fun sf => failCount items sf.recs dom)).sum := by
  obtain ⟨hm, hpos⟩ := cond_of_mem_analyze_keys df sfs hnd m ds dom items hmem hkey
  constructor
  · rw [statGet_analyze, rateify_total, failStats_eq_foldl, statIncFail_foldl_total]
    rw [statGet_initPass df (allModels df sfs) hnd (nodup_allModels df sfs) m ds dom
      items hmem]
    rw [if_pos ⟨hm, hpos⟩]
  · rw [statGet_analyze, rateify_failed, failStats_eq_foldl, statIncFail_foldl_failed]
    rw [failed_initPass]
    rw [count_failSpecs_keys df sfs hnd m ds dom items hmem]
    omega

/-- Witness for the amended C1 on a one-question dataset with one failing record. -/
theorem C1_witness :
    ((([("d", [⟨"q1", ["A"]⟩])] : DataFiles).map Prod.fst).Nodup
      ∧ ("d", [(⟨"q1", ["A"]⟩ : DataItem)]) ∈ ([("d", [⟨"q1", ["A"]⟩])] : DataFiles)
      ∧ (("m", "d", "A") : SKey) ∈ alKeys (analyze_domain_performance
          [("d", [⟨"q1", ["A"]⟩])]
          [⟨"m", "d", [{ total_count := some 1, correct_count := some 0 },
            { id := some "q1", error_type := some "boom" }]⟩]).domain_stats_by_model_dataset)
    ∧ ((statGet (analyze_domain_performance [("d", [⟨"q1", ["A"]⟩])]
          [⟨"m", "d", [{ total_count := some 1, correct_count := some 0 },
            { id := some "q1", error_type := some "boom" }]⟩]).domain_stats_by_model_dataset
          ("m", "d", "A")).total_instances
        = ([(⟨"q1", ["A"]⟩ : DataItem)]).countP (fun it => decide ("A" ∈ it.involved_classes))
      ∧ (statGet (analyze_domain_performance [("d", [⟨"q1", ["A"]⟩])]
          [⟨"m", "d", [{ total_count := some 1, correct_count := some 0 },
            { id := some "q1", error_type := some "boom" }]⟩]).domain_stats_by_model_dataset
          ("m", "d", "A")).failed_instances
        = ((([⟨"m", "d", [{ total_count := some 1, correct_count := some 0 },
              { id := some "q1", error_type := some "boom" }]⟩] : List ScoreFile).filter
            (fun sf => decide (sf.model = "m") && decide (sf.dataset = "d"))).map
            (fun sf => failCount [⟨"q1", ["A"]⟩] sf.recs "A")).sum) :=
  ⟨⟨by decide, by decide, by decide⟩,
   C1_totals_and_failures [("d", [⟨"q1", ["A"]⟩])]
     [⟨"m", "d", [{ total_count := some 1, correct_count := some 0 },
       { id := some "q1", error_type := some "boom" }]⟩]
     (by decide) "m" "d" "A" [⟨"q1", ["A"]⟩] (by decide) (by decide)⟩

/-- Counterexample to C1 as frozen: the failure record's id `""` matches the question
with id `""` (whose domains contain `"A"`), yet the `"A"` failure counter stays `0`,
because line 182's `if not item_id` treats the empty string like a missing id. -/
theorem C1_counterexample :
    ((⟨"", ["A"]⟩ : DataItem) ∈ ([⟨"", ["A"]⟩] : List DataItem)
      ∧ "A" ∈ (⟨"", ["A"]⟩ : DataItem).involved_classes
      ∧ ({ id := some "" } : ScoreRec)
          ∈ ([{ total_count := some 1, correct_count := some 0 },
              { id := some "" }] : List ScoreRec).drop 1
      ∧ some "" = some (DataItem.id ⟨"", ["A"]⟩)
      ∧ (("m", "d", "A") : SKey) ∈ alKeys (analyze_domain_performance
          [("d", [⟨"", ["A"]⟩])]
          [⟨"m", "d", [{ total_count := some 1, correct_count := some 0 },
            { id := some "" }]⟩]).domain_stats_by_model_dataset)
    ∧ (statGet (analyze_domain_performance [("d", [⟨"", ["A"]⟩])]
        [⟨"m", "d", [{ total_count := some 1, correct_count := some 0 },
          { id := some "" }]⟩]).domain_stats_by_model_dataset
        ("m", "d", "A")).failed_instances = 0 := by
  decide

/-- Claim C2: for every `(model, dataset, domain)` entry and every dataset-level
entry of the analyzer's result, `success_rate = (total_instances - failed_instances)
/ total_instances` whenever `total_instances > 0` (so `success_rate = 1` when nothing
failed), and `success_rate` stays `0` when `total_instances = 0` — the code's guard
skips the division entirely in that case (the embedding's `rateify`/`rateifyD` take
the `else` branch, so no division is performed). -/
theorem C2_success_rates (df : DataFiles) (sfs : List ScoreFile) :
    (∀ e ∈ (analyze_domain_performance df sfs).domain_stats_by_model_dataset,
        (0 < e.2.total_instances →
          e.2.success_rate = ((e.2.total_instances : Rat) - (e.2.failed_instances : Rat))
            / (e.2.total_instances : Rat))
        ∧ (0 < e.2.total_instances → e.2.failed_instances = 0 → e.2.success_rate = 1)
        ∧ (e.2.total_instances = 0 → e.2.success_rate = 0))
    ∧ (∀ e ∈ (analyze_domain_performance df sfs).dataset_stats,
        (0 < e.2.total_instances →
          e.2.success_rate = ((e.2.total_instances : Rat) - (e.2.failed_instances : Rat))
            / (e.2.total_instances : Rat))
        ∧ (0 < e.2.total_instances → e.2.failed_instances = 0 → e.2.success_rate = 1)
        ∧ (e.2.total_instances = 0 → e.2.success_rate = 0)) := by
  constructor
  · rw [analyze_stats_eq]
    intro e he
    rcases List.mem_map.mp he with ⟨e', he', rfl⟩
    have hrate0 := rate0_failStats df sfs e' he'
    have hformula : 0 < e'.2.total_instances → (rateify e'.2).success_rate
        = ((e'.2.total_instances : Rat) - (e'.2.failed_instances : Rat))
          / (e'.2.total_instances : Rat) := by
      intro ht
      unfold rateify
      rw [if_pos ht]
    have htot := rateify_total e'.2
    have hfail := rateify_failed e'.2
    refine ⟨?_, ?_, ?_⟩
    · intro ht
      rw [htot] at ht
      show (rateify e'.2).success_rate = _
      rw [htot, hfail, hformula ht]
    · intro ht hf
      rw [htot] at ht
      rw [hfail] at hf
      have hne : ((e'.2.total_instances : Nat) : Rat) ≠ 0 :=
        Nat.cast_ne_zero.mpr (by omega)
      show (rateify e'.2).success_rate = 1
      rw [hformula ht, hf]
      rw [show ((0 : Nat) : Rat) = 0 from by norm_num, sub_zero, div_self hne]
    · intro ht
      rw [htot] at ht
      show (rateify e'.2).success_rate = 0
      unfold rateify
      rw [if_neg (by omega)]
      exact hrate0
  · rw [analyze_dstats_eq]
    intro e he
    rcases List.mem_map.mp he with ⟨e', he', rfl⟩
    have hrate0 := rate0_failDStats df sfs e' he'
    have hformula : 0 < e'.2.total_instances → (rateifyD e'.2).success_rate
        = ((e'.2.total_instances : Rat) - (e'.2.failed_instances : Rat))
          / (e'.2.total_instances : Rat) := by
      intro ht
      unfold rateifyD
      rw [if_pos ht]
    have htot := rateifyD_total e'.2
    have hfail := rateifyD_failed e'.2
    refine ⟨?_, ?_, ?_⟩
    · intro ht
      rw [htot] at ht
      show (rateifyD e'.2).success_rate = _
      rw [htot, hfail, hformula ht]
    · intro ht hf
      rw [htot] at ht
      rw [hfail] at hf
      have hne : ((e'.2.total_instances : Nat) : Rat) ≠ 0 :=
        Nat.cast_ne_zero.mpr (by omega)
      show (rateifyD e'.2).success_rate = 1
      rw [hformula ht, hf]
      rw [show ((0 : Int) : Rat) = 0 from by norm_num, sub_zero, div_self hne]
    · intro ht
      rw [htot] at ht
      show (rateifyD e'.2).success_rate = 0
      unfold rateifyD
      rw [if_neg (by omega)]
      exact hrate0

/-- Witness for C2 on the analyzer result of a one-question dataset: the produced
entry satisfies the success-rate equation. -/
theorem C2_witness :
    ((("m", "d", "A") : SKey), rateify ⟨1, 1, 0, [("unknown", 1)]⟩)
      ∈ (analyze_domain_performance [("d", [⟨"q1", ["A"]⟩])]
          [⟨"m", "d", [{ total_count := some 1, correct_count := some 0 },
            { id := some "q1" }]⟩]).domain_stats_by_model_dataset
    ∧ (0 < (rateify ⟨1, 1, 0, [("unknown", 1)]⟩).total_instances →
        (rateify ⟨1, 1, 0, [("unknown", 1)]⟩).success_rate
          = (((rateify ⟨1, 1, 0, [("unknown", 1)]⟩).total_instances : Rat)
              - ((rateify ⟨1, 1, 0, [("unknown", 1)]⟩).failed_instances : Rat))
            / ((rateify ⟨1, 1, 0, [("unknown", 1)]⟩).total_instances : Rat)) := by
  have hfs : failStats [("d", [⟨"q1", ["A"]⟩])]
      [⟨"m", "d", [{ total_count := some 1, correct_count := some 0 },
        { id := some "q1" }]⟩]
      (initPass [("d", [⟨"q1", ["A"]⟩])]
        (allModels [("d", [⟨"q1", ["A"]⟩])]
          [⟨"m", "d", [{ total_count := some 1, correct_count := some 0 },
            { id := some "q1" }]⟩]))
      = [((("m", "d", "A") : SKey), (⟨1, 1, 0, [("unknown", 1)]⟩ : DomainStat))] := by
    decide
  have hmem : ((("m", "d", "A") : SKey), rateify ⟨1, 1, 0, [("unknown", 1)]⟩)
      ∈ (analyze_domain_performance [("d", [⟨"q1", ["A"]⟩])]
          [⟨"m", "d", [{ total_count := some 1, correct_count := some 0 },
            { id := some "q1" }]⟩]).domain_stats_by_model_dataset := by
    rw [analyze_stats_eq, hfs]
    exact List.mem_singleton.mpr rfl
  exact ⟨hmem, ((C2_success_rates _ _).1 _ hmem).1⟩

/-- Claim C10: for every list `data`, page `p ≥ 1` and page size `s`, `paginate_data`
returns the contiguous slice of `data` starting at index `(p-1)*s` of length at most
`s`; in particular it returns at most `s` elements, the empty list once `(p-1)*s` is at
or past the end, and concatenating enough pages `1, 2, ...` in order reconstructs
`data` exactly. -/
theorem C10_paginate_slice {α : Type} (data : List α) (p s : Nat) (hp : 1 ≤ p) :
    paginate_data data p s = (data.drop ((p - 1) * s)).take s
    ∧ (paginate_data data p s).length ≤ s
    ∧ (data.length ≤ (p - 1) * s → paginate_data data p s = [])
    ∧ (∀ n, data.length ≤ n * s →
        ((List.range n).map (fun i => paginate_data data (i + 1) s)).flatten = data) := by
  refine ⟨paginate_eq_drop_take data p s, ?_, ?_, fun n h => paginate_join s n data h⟩
  · rw [paginate_eq_drop_take, List.length_take]
    exact Nat.min_le_left _ _
  · intro h
    rw [paginate_eq_drop_take, List.drop_eq_nil_of_le h, List.take_nil]

/-- Witness for C10 at `data = [10, 20, 30, 40, 50]`, `p = 2`, `s = 2`. -/
theorem C10_witness :
    1 ≤ 2
    ∧ (paginate_data [10, 20, 30, 40, 50] 2 2
          = (([10, 20, 30, 40, 50] : List Nat).drop ((2 - 1) * 2)).take 2
      ∧ (paginate_data [10, 20, 30, 40, 50] 2 2).length ≤ 2
      ∧ (([10, 20, 30, 40, 50] : List Nat).length ≤ (2 - 1) * 2 →
          paginate_data [10, 20, 30, 40, 50] 2 2 = [])
      ∧ (∀ n, ([10, 20, 30, 40, 50] : List Nat).length ≤ n * 2 →
          ((List.range n).map (fun i => paginate_data [10, 20, 30, 40, 50] (i + 1) 2)).flatten
            = [10, 20, 30, 40, 50])) :=
  ⟨by decide, C10_paginate_slice [10, 20, 30, 40, 50] 2 2 (by decide)⟩

/-- Claim C9: for every input list and every malformed `range_filter` (wrong format,
non-numeric bounds, or start greater than end), `apply_filters` raises no exception
(it is a total function), returns the data with only the search and error-type filters
applied, and reports the parse problem as exactly one inline user message. -/
theorem C9_apply_filters_malformed (data : List ExplorerItem)
    (search_term error_type range_filter : String)
    (hne : range_filter ≠ "")
    (hmal : ¬(containsSub range_filter "-" = true ∧ (pySplitDash range_filter).length = 2)
      ∨ pyInt ((pySplitDash range_filter).headD "") = none
      ∨ pyInt (((pySplitDash range_filter).drop 1).headD "") = none
      ∨ (∃ a b, pyInt ((pySplitDash range_filter).headD "") = some a
          ∧ pyInt (((pySplitDash range_filter).drop 1).headD "") = some b ∧ b < a)) :
    (apply_filters data search_term error_type range_filter).1
        = errorTypeFilter error_type (searchFilter search_term data)
      ∧ (apply_filters data search_term error_type range_filter).2.length = 1 := by
  unfold apply_filters
  rw [if_neg hne]
  by_cases hc : (containsSub range_filter "-" && (pySplitDash range_filter).length == 2) = true
  · rw [if_pos hc]
    cases ha : pyInt ((pySplitDash range_filter).headD "") with
    | none => simp
    | some a =>
      cases hb : pyInt (((pySplitDash range_filter).drop 1).headD "") with
      | none => simp
      | some b =>
        have hab : b < a := by
          rcases hmal with h | h | h | hlt
          · refine absurd ⟨(Bool.and_eq_true_iff.mp hc).1, ?_⟩ h
            have := (Bool.and_eq_true_iff.mp hc).2
            simpa using this
          · rw [ha] at h; cases h
          · rw [hb] at h; cases h
          · rcases hlt with ⟨a2, b2, ha2, hb2, hlt2⟩
            rw [ha] at ha2
            rw [hb] at hb2
            cases ha2; cases hb2
            exact hlt2
        have hnab : ¬ a ≤ b := by omega
        simp [hnab]
  · rw [if_neg hc]
    exact ⟨rfl, rfl⟩

/-- Witness for C9 at a start-greater-than-end range filter. -/
theorem C9_witness :
    (apply_filters [{ dump := "abc" }] "" "All" "5-2").1
        = errorTypeFilter "All" (searchFilter "" [{ dump := "abc" }])
      ∧ (apply_filters [{ dump := "abc" }] "" "All" "5-2").2.length = 1 :=
  C9_apply_filters_malformed [{ dump := "abc" }] "" "All" "5-2" (by decide)
    (Or.inr (Or.inr (Or.inr ⟨5, 2, by decide, by decide, by decide⟩)))

/-- Claim C8: `load_questions` fails with a not-found error exactly when the dataset
file is absent from the data directory, and `load_ground_truth` returns the empty
sequence (it is total, so nothing is raised) when the possible-answer file is absent. -/
theorem C8_load_not_found (dl : BFCLDataLoader) (dataset_name : String) :
    ((∃ msg, load_questions dl dataset_name = .error msg)
        ↔ alGet? dl.data_dir dataset_name = none)
      ∧ (alGet? dl.answer_dir dataset_name = none →
          load_ground_truth dl dataset_name = []) := by
  constructor
  · constructor
    · rintro ⟨msg, hmsg⟩
      unfold load_questions at hmsg
      cases h : alGet? dl.data_dir dataset_name with
      | none => rfl
      | some qs =>
        rw [h] at hmsg
        by_cases hmt : is_multi_turn_dataset dataset_name = true <;> simp [hmt] at hmsg
    · intro h
      refine ⟨"Dataset file not found: " ++ dataset_name, ?_⟩
      unfold load_questions
      rw [h]
  · intro h
    unfold load_ground_truth
    rw [h]

/-- Witness for C8 on an empty data directory and absent possible-answer file. -/
theorem C8_witness :
    (∃ msg, load_questions ⟨[], [], none⟩ "x" = .error msg)
      ∧ load_ground_truth ⟨[], [], none⟩ "x" = [] :=
  ⟨(C8_load_not_found ⟨[], [], none⟩ "x").1.mpr rfl,
   (C8_load_not_found ⟨[], [], none⟩ "x").2 rfl⟩

/-- Claim C6 (code bug): `validate_dataset` is supposed to report a question missing
its `id` field as a validation error (its own per-question check at lines 246-247
appends "missing id field"), but the id-uniqueness comprehension
`[q["id"] for q in questions]` at line 220 runs first and raises an uncaught
`KeyError`, so for a dataset whose files load but contain a question without an `id`
no `{is_valid, errors, warnings}` record is returned at all. -/
theorem C6_validate_missing_id_raises :
    validate_dataset
        ⟨[("d", [{ question := some (.listVal 1), function := some [] }])], [], none⟩ "d"
      = .error "KeyError: id" := by
  rfl

theorem scoreFold_congr {σ : Type} (step : σ → ScoreFile → σ) (q : ScoreFile → Bool)
    (sfs₁ sfs₂ : List ScoreFile) (sf sf2 : ScoreFile)
    (hq : q sf = q sf2) (hstep : q sf = true → ∀ acc, step acc sf = step acc sf2)
    (acc : σ) :
    ((sfs₁ ++ sf :: sfs₂).filter q).foldl step acc
      = ((sfs₁ ++ sf2 :: sfs₂).filter q).foldl step acc := by
  rw [List.filter_append, List.filter_append, List.filter_cons, List.filter_cons, ← hq]
  by_cases h : q sf = true
  · rw [if_pos h, if_pos h, List.foldl_append, List.foldl_append, List.foldl_cons,
      List.foldl_cons, hstep h]
  · rw [if_neg h, if_neg h]

theorem getMatchedDomains_nil_of_skip (items : List DataItem) (r : ScoreRec)
    (hskip : r.id = none ∨ ∃ i, r.id = some i ∧ lookupById items i = none) :
    getMatchedDomains items r = [] := by
  unfold getMatchedDomains
  cases hid : r.id with
  | none => rfl
  | some i =>
    show (if i = "" then []
      else match lookupById items i with
        | none => []
        | some q => get_data_domains q) = []
    by_cases he : i = ""
    · rw [if_pos he]
    · rw [if_neg he]
      rcases hskip with h | ⟨j, hj, hl⟩
      · rw [hid] at h
        exact Option.noConfusion h
      · rw [hid] at hj
        injection hj with hj2
        rw [← hj2] at hl
        rw [hl]

theorem procFail_skip (items : List DataItem) (m ds : String) (s : StatsMap) (r : ScoreRec)
    (h : getMatchedDomains items r = []) : procFail items m ds s r = s := by
  unfold procFail
  rw [h]
  rfl

theorem recsFold_removed (items : List DataItem) (m ds : String) (a : ScoreRec)
    (pre post : List ScoreRec) (r : ScoreRec)
    (h : getMatchedDomains items r = []) (s : StatsMap) :
    (((a :: pre) ++ r :: post).drop 1).foldl (procFail items m ds) s
      = (((a :: pre) ++ post).drop 1).foldl (procFail items m ds) s := by
  show (pre ++ r :: post).foldl (procFail items m ds) s
      = (pre ++ post).foldl (procFail items m ds) s
  rw [List.foldl_append, List.foldl_append, List.foldl_cons,
    procFail_skip items m ds _ r h]

theorem dstep_removed (dt : List (String × Nat)) (ds0 : String) (d : DStats)
    (m ds : String) (a : ScoreRec) (pre post : List ScoreRec) (r : ScoreRec) :
    dstep dt ds0 d ⟨m, ds, (a :: pre) ++ r :: post⟩
      = dstep dt ds0 d ⟨m, ds, (a :: pre) ++ post⟩ := rfl

theorem allModels_removed (df : DataFiles) (sfs₁ sfs₂ : List ScoreFile)
    (m ds : String) (recs recs2 : List ScoreRec) :
    allModels df (sfs₁ ++ ⟨m, ds, recs⟩ :: sfs₂)
      = allModels df (sfs₁ ++ ⟨m, ds, recs2⟩ :: sfs₂) := by
  unfold allModels
  refine foldl_congr_mem ?_ []
  intro acc p hp
  refine scoreFold_congr _ _ sfs₁ sfs₂ ⟨m, ds, recs⟩ ⟨m, ds, recs2⟩ ?_ ?_ acc
  · rfl
  · exact fun _ acc2 => rfl

theorem failStats_removed (df : DataFiles) (sfs₁ sfs₂ : List ScoreFile)
    (m ds : String) (a : ScoreRec) (pre post : List ScoreRec) (r : ScoreRec)
    (hskip : ∀ its, (ds, its) ∈ df → getMatchedDomains its r = []) (s0 : StatsMap) :
    failStats df (sfs₁ ++ ⟨m, ds, (a :: pre) ++ r :: post⟩ :: sfs₂) s0
      = failStats df (sfs₁ ++ ⟨m, ds, (a :: pre) ++ post⟩ :: sfs₂) s0 := by
  unfold failStats
  refine foldl_congr_mem ?_ s0
  intro s p hp
  refine scoreFold_congr _ _ sfs₁ sfs₂ ⟨m, ds, (a :: pre) ++ r :: post⟩
    ⟨m, ds, (a :: pre) ++ post⟩ ?_ ?_ s
  · rfl
  intro hq acc
  have hds : ds = p.1 := of_decide_eq_true hq
  have hitems : getMatchedDomains p.2 r = [] := by
    refine hskip p.2 ?_
    rw [hds]
    exact hp
  exact recsFold_removed p.2 m p.1 a pre post r hitems acc

theorem failDStats_removed (df : DataFiles) (sfs₁ sfs₂ : List ScoreFile)
    (m ds : String) (a : ScoreRec) (pre post : List ScoreRec) (r : ScoreRec) :
    failDStats df (sfs₁ ++ ⟨m, ds, (a :: pre) ++ r :: post⟩ :: sfs₂)
      = failDStats df (sfs₁ ++ ⟨m, ds, (a :: pre) ++ post⟩ :: sfs₂) := by
  unfold failDStats
  refine foldl_congr_mem ?_ []
  intro d p hp
  refine scoreFold_congr _ _ sfs₁ sfs₂ ⟨m, ds, (a :: pre) ++ r :: post⟩
    ⟨m, ds, (a :: pre) ++ post⟩ ?_ ?_ d
  · rfl
  intro _ acc
  exact dstep_removed (datasetTotals df) p.1 acc m ds a pre post r

/-- Claim C4: a failure record (a record after the first, summary, line of a score
file) whose `id` is missing, or references no question of the score file's dataset,
is silently skipped: removing it from the score file leaves the entire analyzer
result — every domain failure counter, error-type histogram, dataset entry and the
overall totals — unchanged, and the embedding is a total function, so no error is
raised. -/
theorem C4_skipped_record (df : DataFiles) (sfs₁ sfs₂ : List ScoreFile)
    (m ds : String) (a : ScoreRec) (pre post : List ScoreRec) (r : ScoreRec)
    (hnd : (df.map Prod.fst).Nodup) (items : List DataItem) (hmem : (ds, items) ∈ df)
    (hskip : r.id = none ∨ ∃ i, r.id = some i ∧ lookupById items i = none) :
    analyze_domain_performance df (sfs₁ ++ ⟨m, ds, (a :: pre) ++ r :: post⟩ :: sfs₂)
      = analyze_domain_performance df (sfs₁ ++ ⟨m, ds, (a :: pre) ++ post⟩ :: sfs₂) := by
  have hskip2 : ∀ its, (ds, its) ∈ df → getMatchedDomains its r = [] := by
    intro its hits
    have heq : ((ds, its) : String × List DataItem) = (ds, items) :=
      mem_entry_of_nodup_fst hnd hmem hits rfl
    have h2 : its = items := congrArg Prod.snd heq
    rw [h2]
    exact getMatchedDomains_nil_of_skip items r hskip
  have hmod := allModels_removed df sfs₁ sfs₂ m ds ((a :: pre) ++ r :: post)
    ((a :: pre) ++ post)
  have hfd := failDStats_removed df sfs₁ sfs₂ m ds a pre post r
  simp only [analyze_domain_performance, failPass_eq]
  rw [hmod, hfd]
  have hfs := failStats_removed df sfs₁ sfs₂ m ds a pre post r hskip2
    (initPass df (allModels df (sfs₁ ++ ⟨m, ds, (a :: pre) ++ post⟩ :: sfs₂)))
  rw [hfs]

/-- Witness for C4: a score file with a summary line and one failure record whose id
matches no question; removing the record leaves the analyzer result unchanged. -/
theorem C4_witness :
    (([("d", [⟨"q1", ["A"]⟩])] : DataFiles).map Prod.fst).Nodup
    ∧ ("d", [(⟨"q1", ["A"]⟩ : DataItem)]) ∈ ([("d", [⟨"q1", ["A"]⟩])] : DataFiles)
    ∧ (({ id := some "zz" } : ScoreRec).id = none
        ∨ ∃ i, ({ id := some "zz" } : ScoreRec).id = some i
            ∧ lookupById [⟨"q1", ["A"]⟩] i = none)
    ∧ analyze_domain_performance [("d", [⟨"q1", ["A"]⟩])]
        [⟨"m", "d", ({ total_count := some 1, correct_count := some 0 } :: [])
            ++ { id := some "zz" } :: []⟩]
      = analyze_domain_performance [("d", [⟨"q1", ["A"]⟩])]
        [⟨"m", "d", ({ total_count := some 1, correct_count := some 0 } :: []) ++ []⟩] :=
  ⟨by decide, by decide, Or.inr ⟨"zz", rfl, by decide⟩,
   C4_skipped_record [("d", [⟨"q1", ["A"]⟩])] [] [] "m" "d"
     { total_count := some 1, correct_count := some 0 } [] [] { id := some "zz" }
     (by decide) [⟨"q1", ["A"]⟩] (by decide)
     (Or.inr ⟨"zz", rfl, by decide⟩)⟩

theorem forall_foldl_alUpd_mem {κ β γ : Type} [DecidableEq κ] (P : β → Prop)
    (specs : List γ) (key : γ → κ) (F : γ → β → β) (dflt : β) :
    ∀ (s₀ : List (κ × β)), (∀ c ∈ specs, ∀ b, P (F c b)) → (∀ e ∈ s₀, P e.2) →
    ∀ e ∈ specs.foldl (fun s c => alUpd s dflt (key c) (F c)) s₀, P e.2 := by
  induction specs with
  | nil => intro s₀ _ hP; exact hP
  | cons c rest ih =>
    intro s₀ hF hP
    rw [List.foldl_cons]
    exact ih _ (fun c2 hc2 => hF c2 (List.mem_cons_of_mem _ hc2))
      (forall_alUpd (hF c (List.mem_cons_self _ _)) hP)

theorem pos_values_initSpecs (df : DataFiles) (models : List String) :
    ∀ c ∈ initSpecs df models, 0 < c.2 := by
  intro c hc
  unfold initSpecs at hc
  rw [List.mem_flatMap] at hc
  obtain ⟨p, hp, hc⟩ := hc
  rw [List.mem_flatMap] at hc
  obtain ⟨m, hm, hc⟩ := hc
  rw [List.mem_map] at hc
  obtain ⟨dc, hdc, rfl⟩ := hc
  exact pos_values_datasetDomainCounts p.2 dc hdc

theorem pos_total_initPass (df : DataFiles) (models : List String) :
    ∀ e ∈ initPass df models, 0 < e.2.total_instances := by
  rw [initPass_eq_foldl]
  refine forall_foldl_alUpd_mem (fun st => 0 < st.total_instances)
    (initSpecs df models) (fun c => c.1)
    (fun c st => { st with total_instances := c.2 }) dfltStat [] ?_ ?_
  · intro c hc b
    show 0 < c.2
    exact pos_values_initSpecs df models c hc
  · intro e he
    cases he

theorem pos_total_failStats (df : DataFiles) (sfs : List ScoreFile) :
    ∀ e ∈ failStats df sfs (initPass df (allModels df sfs)), 0 < e.2.total_instances := by
  rw [failStats_eq_foldl]
  exact @forall_foldl_alUpd_present SKey DomainStat (SKey × String) _
    (fun st => 0 < st.total_instances) (failSpecs df sfs) (fun c => c.1)
    (fun c st =>
      { st with failed_instances := st.failed_instances + 1,
                error_types := incrCount st.error_types c.2 })
    dfltStat _ (failSpecs_key_mem df sfs) (fun c b hb => hb)
    (pos_total_initPass df (allModels df sfs))

/-- Claim C7: flattening `domain_stats_by_model_dataset` with the exporter is a
round-trip: every analyzer entry has a positive total (so the exporter filter
`total_instances > 0` drops nothing) and appears as the row
`(domain, model, dataset, success_rate)`, and every exported row arises from an
analyzer entry — the set of `(domain, model, dataset)` triples read back from the
rows equals the set in the analyzer result, each with the analyzer's rate. -/
theorem C7_export_roundtrip (df : DataFiles) (sfs : List ScoreFile) :
    (∀ e ∈ (analyze_domain_performance df sfs).domain_stats_by_model_dataset,
        (⟨e.1.2.2, e.1.1, e.1.2.1, e.2.success_rate⟩ : ExportRecord)
          ∈ extract_model_dataset_results
              (analyze_domain_performance df sfs).domain_stats_by_model_dataset)
    ∧ ∀ row ∈ extract_model_dataset_results
          (analyze_domain_performance df sfs).domain_stats_by_model_dataset,
        ∃ e ∈ (analyze_domain_performance df sfs).domain_stats_by_model_dataset,
          row = ⟨e.1.2.2, e.1.1, e.1.2.1, e.2.success_rate⟩ := by
  have hpos : ∀ e ∈ (analyze_domain_performance df sfs).domain_stats_by_model_dataset,
      0 < e.2.total_instances := by
    rw [analyze_stats_eq]
    intro e he
    unfold mapVals at he
    rcases List.mem_map.mp he with ⟨e1, he1, rfl⟩
    show 0 < (rateify e1.2).total_instances
    rw [rateify_total]
    exact pos_total_failStats df sfs e1 he1
  constructor
  · intro e he
    unfold extract_model_dataset_results
    refine List.mem_map.mpr ⟨e, ?_, rfl⟩
    exact List.mem_filter.mpr ⟨he, decide_eq_true (hpos e he)⟩
  · intro row hrow
    unfold extract_model_dataset_results at hrow
    rcases List.mem_map.mp hrow with ⟨e, he, rfl⟩
    exact ⟨e, (List.mem_filter.mp he).1, rfl⟩

theorem alGet?_append_ne {κ β : Type} [DecidableEq κ] (d : List (κ × β))
    (k k2 : κ) (v : β) (h : ¬ k = k2) :
    alGet? (d ++ [(k2, v)]) k = alGet? d k := by
  induction d with
  | nil =>
    show (if k2 = k then some v else alGet? [] k) = none
    rw [if_neg (fun hc => h hc.symm)]
    rfl
  | cons e rest ih =>
    show (if e.1 = k then some e.2 else alGet? (rest ++ [(k2, v)]) k)
        = (if e.1 = k then some e.2 else alGet? rest k)
    by_cases he : e.1 = k
    · rw [if_pos he, if_pos he]
    · rw [if_neg he, if_neg he, ih]

theorem alGet_append_ne {κ β : Type} [DecidableEq κ] (d : List (κ × β)) (dflt : β)
    (k k2 : κ) (v : β) (h : ¬ k = k2) :
    alGet (d ++ [(k2, v)]) dflt k = alGet d dflt k := by
  unfold alGet
  rw [alGet?_append_ne d k k2 v h]

theorem failDStats_eq_foldl (df : DataFiles) (sfs : List ScoreFile) :
    failDStats df sfs = (processedScoreFiles df sfs).foldl
      (fun d sf => dstep (datasetTotals df) sf.dataset d sf) [] := by
  unfold failDStats processedScoreFiles
  rw [foldl_flatMap]
  refine foldl_congr_mem ?_ []
  intro d p hp
  refine foldl_congr_mem ?_ d
  intro d2 sf hsf
  have hds : sf.dataset = p.1 := of_decide_eq_true (List.mem_filter.mp hsf).2
  rw [hds]

theorem alGet_dstep_ne (dt : List (String × Nat)) (d : DStats) (sf : ScoreFile)
    (k : String) (hk : ¬ k = dsetKey sf) :
    alGet (dstep dt sf.dataset d sf) dfltDStat k = alGet d dfltDStat k := by
  show alGet (alUpd
      (if sf.dataset ++ "_" ++ sf.model ∈ alKeys d then d
       else d ++ [(sf.dataset ++ "_" ++ sf.model,
          { total_instances := alGet dt 0 sf.dataset })])
      dfltDStat (sf.dataset ++ "_" ++ sf.model)
      (fun st => { st with failed_instances := summaryFailed sf.recs }))
      dfltDStat k
    = alGet d dfltDStat k
  have hk2 : ¬ k = sf.dataset ++ "_" ++ sf.model := hk
  rw [alGet_alUpd]
  rw [if_neg hk2]
  by_cases hin : (sf.dataset ++ "_" ++ sf.model) ∈ alKeys d
  · rw [if_pos hin]
  · rw [if_neg hin, alGet_append_ne d dfltDStat k (sf.dataset ++ "_" ++ sf.model) _ hk2]

theorem dstep_failed_self (dt : List (String × Nat)) (d : DStats) (sf : ScoreFile) :
    (alGet (dstep dt sf.dataset d sf) dfltDStat (dsetKey sf)).failed_instances
      = summaryFailed sf.recs := by
  show (alGet (alUpd
      (if sf.dataset ++ "_" ++ sf.model ∈ alKeys d then d
       else d ++ [(sf.dataset ++ "_" ++ sf.model,
          { total_instances := alGet dt 0 sf.dataset })])
      dfltDStat (sf.dataset ++ "_" ++ sf.model)
      (fun st => { st with failed_instances := summaryFailed sf.recs }))
      dfltDStat (sf.dataset ++ "_" ++ sf.model)).failed_instances
    = summaryFailed sf.recs
  rw [alGet_alUpd, if_pos rfl]

theorem dstepFold_untouched (dt : List (String × Nat)) (l : List ScoreFile) (k : String)
    (hk : ∀ sf ∈ l, ¬ k = dsetKey sf) :
    ∀ d : DStats, alGet (l.foldl (fun d2 sf => dstep dt sf.dataset d2 sf) d) dfltDStat k
      = alGet d dfltDStat k := by
  induction l with
  | nil => intro d; rfl
  | cons sf rest ih =>
    intro d
    rw [List.foldl_cons, ih (fun s hs => hk s (List.mem_cons_of_mem _ hs))]
    exact alGet_dstep_ne dt d sf k (hk sf (List.mem_cons_self _ _))

theorem dstep_foldl_failed (dt : List (String × Nat)) (l : List ScoreFile)
    (sf : ScoreFile) :
    (l.map dsetKey).Nodup → sf ∈ l → ∀ d : DStats,
      (alGet (l.foldl (fun d2 sf2 => dstep dt sf2.dataset d2 sf2) d) dfltDStat
        (dsetKey sf)).failed_instances = summaryFailed sf.recs := by
  induction l with
  | nil => intro _ hsf; cases hsf
  | cons sf2 rest ih =>
    intro hnd hsf d
    rw [List.foldl_cons]
    have hndc : (dsetKey sf2 :: rest.map dsetKey).Nodup := by
      rw [List.map_cons] at hnd
      exact hnd
    have hnd2 := List.nodup_cons.mp hndc
    rcases List.mem_cons.mp hsf with rfl | hsf2
    · have huntouched : ∀ s ∈ rest, ¬ dsetKey sf = dsetKey s := by
        intro s hs hc
        refine hnd2.1 ?_
        rw [hc]
        exact List.mem_map_of_mem dsetKey hs
      rw [dstepFold_untouched dt rest (dsetKey sf) huntouched]
      exact dstep_failed_self dt d sf
    · exact ih hnd2.2 hsf2 _

/-- Claim C3 (amended: `dataset_stats` is keyed by the concatenated string
`{dataset}_{model}`, so distinct pairs whose concatenations collide overwrite one
another — the hypothesis asks the concatenated keys of the processed score files to be
pairwise distinct): for every processed score file, the dataset-level
`failed_instances` of its `{dataset}_{model}` entry equals `total_count -
correct_count` of the summary record on the score file's first line (not a count of
the subsequent failure records), and the overall totals are the sums over the
dataset-level entries, not over the per-domain breakdowns. -/
theorem C3_dataset_failed_and_overall (df : DataFiles) (sfs : List ScoreFile)
    (hinj : ((processedScoreFiles df sfs).map dsetKey).Nodup)
    (sf : ScoreFile) (hsf : sf ∈ processedScoreFiles df sfs) :
    (alGet (analyze_domain_performance df sfs).dataset_stats dfltDStat
        (dsetKey sf)).failed_instances = summaryFailed sf.recs
    ∧ (analyze_domain_performance df sfs).overall_stats.total_instances
        = (((analyze_domain_performance df sfs).dataset_stats).map
            (fun e => e.2.total_instances)).sum
    ∧ (analyze_domain_performance df sfs).overall_stats.total_failed
        = (((analyze_domain_performance df sfs).dataset_stats).map
            (fun e => e.2.failed_instances)).sum := by
  refine ⟨?_, rfl, rfl⟩
  rw [analyze_dstats_eq]
  rw [alGet_mapVals rateifyD_dflt, rateifyD_failed]
  rw [failDStats_eq_foldl]
  exact dstep_foldl_failed (datasetTotals df) (processedScoreFiles df sfs) sf hinj hsf []

/-- Witness for the amended C3 on one dataset with one score file whose summary says
3 total and 2 correct. -/
theorem C3_witness :
    (((processedScoreFiles [("d", [])]
        [⟨"m", "d", [{ total_count := some 3, correct_count := some 2 }]⟩]).map
        dsetKey).Nodup
      ∧ (⟨"m", "d", [{ total_count := some 3, correct_count := some 2 }]⟩ : ScoreFile)
        ∈ processedScoreFiles [("d", [])]
            [⟨"m", "d", [{ total_count := some 3, correct_count := some 2 }]⟩])
    ∧ (alGet (analyze_domain_performance [("d", [])]
          [⟨"m", "d", [{ total_count := some 3, correct_count := some 2 }]⟩]).dataset_stats
          dfltDStat
          (dsetKey ⟨"m", "d", [{ total_count := some 3, correct_count := some 2 }]⟩)
        ).failed_instances
      = summaryFailed [{ total_count := some 3, correct_count := some 2 }] :=
  ⟨⟨by decide, by decide⟩,
   (C3_dataset_failed_and_overall [("d", [])]
     [⟨"m", "d", [{ total_count := some 3, correct_count := some 2 }]⟩] (by decide)
     ⟨"m", "d", [{ total_count := some 3, correct_count := some 2 }]⟩ (by decide)).1⟩

/-- Counterexample to C3 as frozen: dataset `"A"` with model `"B_C"` and dataset
`"A_B"` with model `"C"` share the concatenated `dataset_stats` key `"A_B_C"`, so the
second processed score file overwrites the first and the `("A", "B_C")` pair — whose
summary records 1 failure — ends with `failed_instances = 0`. -/
theorem C3_counterexample :
    ((⟨"B_C", "A", [{ total_count := some 1, correct_count := some 0 }]⟩ : ScoreFile)
        ∈ processedScoreFiles [("A", []), ("A_B", [])]
            [⟨"B_C", "A", [{ total_count := some 1, correct_count := some 0 }]⟩,
             ⟨"C", "A_B", [{ total_count := some 1, correct_count := some 1 }]⟩]
      ∧ summaryFailed [{ total_count := some 1, correct_count := some 0 }] = 1)
    ∧ ¬ ((alGet (analyze_domain_performance [("A", []), ("A_B", [])]
          [⟨"B_C", "A", [{ total_count := some 1, correct_count := some 0 }]⟩,
           ⟨"C", "A_B", [{ total_count := some 1, correct_count := some 1 }]⟩]).dataset_stats
          dfltDStat
          (dsetKey ⟨"B_C", "A", [{ total_count := some 1, correct_count := some 0 }]⟩)
        ).failed_instances = 1) := by
  decide

theorem sum_map_natCast_int {α : Type} (l : List α) (f : α → Nat) :
    (l.map (fun x => ((f x : Nat) : Int))).sum = (((l.map f).sum : Nat) : Int) := by
  induction l with
  | nil => rfl
  | cons x rest ih => simp [List.map_cons, List.sum_cons, ih]

theorem count_filter_pos {α : Type} [BEq α] [LawfulBEq α] (l : List α) (q : α → Bool) (a : α)
    (h : q a = true) : (l.filter q).count a = l.count a := by
  induction l with
  | nil => rfl
  | cons x rest ih =>
    rw [List.filter_cons]
    by_cases hx : q x = true
    · rw [if_pos hx, List.count_cons, List.count_cons, ih]
    · rw [if_neg hx, ih, List.count_cons]
      have hne : ¬ (x == a) = true := by
        intro hc
        rw [beq_iff_eq] at hc
        rw [hc] at hx
        exact hx h
      rw [if_neg hne, Nat.add_zero]

theorem countP_map_eq {α γ : Type} (l : List α) (f : α → γ) (q : γ → Bool) :
    (l.map f).countP q = l.countP (fun x => q (f x)) := by
  induction l with
  | nil => rfl
  | cons x rest ih => simp [List.countP_cons, ih]

theorem sum_count_eq_length {α : Type} [BEq α] [LawfulBEq α] (keys : List α)
    (hnd : keys.Nodup) :
    ∀ L : List α, (∀ x ∈ L, x ∈ keys) →
      (keys.map (fun k => L.count k)).sum = L.length := by
  intro L
  induction L with
  | nil => intro _; simp
  | cons x rest ih =>
    intro hcov
    have h1 : (keys.map (fun k => (x :: rest).count k)).sum
        = (keys.map (fun k => rest.count k + (if x == k then 1 else 0))).sum := by
      congr 1
      apply List.map_congr_left
      intro k hk
      rw [List.count_cons]
    rw [h1, sum_map_add, ih (fun y hy => hcov y (List.mem_cons_of_mem _ hy))]
    have h2 : (keys.map (fun k => if x == k then 1 else 0)).sum = 1 := by
      have hid : (keys.map id).Nodup := by simpa using hnd
      rw [sum_map_single (fun k => if x == k then 1 else 0) id hid
        (hcov x (List.mem_cons_self _ _)) ?_]
      · simp
      · intro k hk hne
        have hne2 : ¬ (x == k) = true := by
          intro hc
          rw [beq_iff_eq] at hc
          exact hne (by simpa using hc.symm)
        show (if (x == k) = true then 1 else 0) = 0
        rw [if_neg hne2]
    rw [h2, List.length_cons]

theorem sum_ge_length_iff (l : List Nat) :
    (∀ x ∈ l, 0 < x) →
      l.length ≤ l.sum ∧ (l.sum = l.length ↔ ∀ x ∈ l, x = 1) := by
  induction l with
  | nil => intro _; simp
  | cons x rest ih =>
    intro hpos
    have hx := hpos x (List.mem_cons_self _ _)
    have ih2 := ih (fun y hy => hpos y (List.mem_cons_of_mem _ hy))
    have hle := ih2.1
    rw [List.sum_cons, List.length_cons]
    refine ⟨by omega, ?_, ?_⟩
    · intro h y hy
      rcases List.mem_cons.mp hy with rfl | hy2
      · omega
      · have hsum_eq : rest.sum = rest.length := by omega
        exact (ih2.2.mp hsum_eq) y hy2
    · intro hall
      have h1 : x = 1 := hall x (List.mem_cons_self _ _)
      have h2 : rest.sum = rest.length :=
        ih2.2.mpr (fun y hy => hall y (List.mem_cons_of_mem _ hy))
      omega

theorem alGet_of_mem_nodup {κ β : Type} [DecidableEq κ] (dflt : β) :
    ∀ (d : List (κ × β)), (alKeys d).Nodup → ∀ e ∈ d, alGet d dflt e.1 = e.2 := by
  intro d
  induction d with
  | nil => intro _ e he; cases he
  | cons e2 rest ih =>
    intro hnd e he
    have hnd2 := List.nodup_cons.mp (show (e2.1 :: alKeys rest).Nodup from hnd)
    rcases List.mem_cons.mp he with rfl | he2
    · show ((if e.1 = e.1 then some e.2 else alGet? rest e.1).getD dflt) = e.2
      rw [if_pos rfl]
      rfl
    · have hne : ¬ e2.1 = e.1 := by
        intro hc
        refine hnd2.1 ?_
        rw [hc]
        exact List.mem_map_of_mem Prod.fst he2
      show ((if e2.1 = e.1 then some e2.2 else alGet? rest e.1).getD dflt) = e.2
      rw [if_neg hne]
      exact ih hnd2.2 e he2

theorem nodup_alKeys_foldl_alUpd {κ β γ : Type} [DecidableEq κ] (specs : List γ)
    (key : γ → κ) (F : γ → β → β) (dflt : β) :
    ∀ s₀ : List (κ × β), (alKeys s₀).Nodup →
      (alKeys (specs.foldl (fun s c => alUpd s dflt (key c) (F c)) s₀)).Nodup := by
  induction specs with
  | nil => intro s₀ h; exact h
  | cons c rest ih =>
    intro s₀ h
    rw [List.foldl_cons]
    exact ih _ (nodup_alKeys_alUpd s₀ dflt (key c) (F c) h)

theorem nodup_alKeys_initPass (df : DataFiles) (models : List String) :
    (alKeys (initPass df models)).Nodup := by
  rw [initPass_eq_foldl]
  exact nodup_alKeys_foldl_alUpd (initSpecs df models) (fun c => c.1)
    (fun c st => { st with total_instances := c.2 }) dfltStat [] List.nodup_nil

theorem failed_entry_failStats (df : DataFiles) (sfs : List ScoreFile) :
    ∀ e ∈ failStats df sfs (initPass df (allModels df sfs)),
      e.2.failed_instances = ((failSpecs df sfs).map Prod.fst).count e.1 := by
  intro e he
  have hnd : (alKeys (failStats df sfs (initPass df (allModels df sfs)))).Nodup := by
    rw [alKeys_failStats]
    exact nodup_alKeys_initPass df (allModels df sfs)
  have hget := alGet_of_mem_nodup dfltStat _ hnd e he
  have hkey := statIncFail_foldl_failed (failSpecs df sfs)
    (initPass df (allModels df sfs)) e.1
  rw [failed_initPass, Nat.zero_add] at hkey
  rw [← hget, failStats_eq_foldl]
  exact hkey

theorem sumFailedOver_mapVals (m ds : String) (d : StatsMap) :
    sumFailedOver m ds (mapVals rateify d) = sumFailedOver m ds d := by
  induction d with
  | nil => rfl
  | cons e rest ih =>
    unfold sumFailedOver at *
    show ((List.filter _ ((e.1, rateify e.2) :: mapVals rateify rest)).map _).sum = _
    rw [List.filter_cons, List.filter_cons]
    by_cases hp : (e.1.1 = m ∧ e.1.2.1 = ds)
    · rw [if_pos (decide_eq_true hp), if_pos (decide_eq_true hp)]
      rw [List.map_cons, List.map_cons, List.sum_cons, List.sum_cons, ih]
      show ((rateify e.2).failed_instances : Int) + _ = _
      rw [rateify_failed]
    · rw [if_neg (fun hc => hp (of_decide_eq_true hc)),
        if_neg (fun hc => hp (of_decide_eq_true hc))]
      exact ih

theorem countP_pair_block (items : List DataItem) (ds m : String) (sf : ScoreFile) :
    (List.map Prod.fst ((sf.recs.drop 1).flatMap (fun r =>
        (getMatchedDomains items r).map (fun d =>
          (((sf.model, ds, d) : SKey), r.error_type.getD "unknown"))))).countP
        (fun k => decide (k.1 = m ∧ k.2.1 = ds))
      = if sf.model = m
        then ((sf.recs.drop 1).map (fun r => (getMatchedDomains items r).length)).sum
        else 0 := by
  rw [List.map_flatMap, countP_flatMap]
  by_cases hm : sf.model = m
  · rw [if_pos hm]
    congr 1
    apply List.map_congr_left
    intro r hr
    rw [List.map_map, countP_map_eq]
    rw [List.countP_eq_length.mpr]
    intro d hd
    exact decide_eq_true ⟨hm, rfl⟩
  · rw [if_neg hm]
    apply List.sum_eq_zero
    intro x hx
    rcases List.mem_map.mp hx with ⟨r, hr, rfl⟩
    rw [List.map_map, countP_map_eq]
    rw [List.countP_eq_zero]
    intro d hd
    intro hpred
    exact hm (of_decide_eq_true hpred).1

theorem countP_failSpecs_pair (df : DataFiles) (sfs : List ScoreFile)
    (hnd : (df.map Prod.fst).Nodup) (m ds : String) (items : List DataItem)
    (hmem : (ds, items) ∈ df) :
    ((failSpecs df sfs).map Prod.fst).countP (fun k => decide (k.1 = m ∧ k.2.1 = ds))
      = ((sfs.filter (fun s => decide (s.model = m) && decide (s.dataset = ds))).map
          (fun s => ((s.recs.drop 1).map
            (fun r => (getMatchedDomains items r).length)).sum)).sum := by
  unfold failSpecs
  rw [List.map_flatMap, countP_flatMap]
  rw [sum_map_single
      (fun p => (List.map Prod.fst
        ((sfs.filter (fun sf => sf.dataset = p.1)).flatMap (fun sf =>
          (sf.recs.drop 1).flatMap (fun r =>
            (getMatchedDomains p.2 r).map (fun d =>
              (((sf.model, p.1, d) : SKey), r.error_type.getD "unknown")))))).countP
        (fun k => decide (k.1 = m ∧ k.2.1 = ds)))
      Prod.fst hnd hmem ?side]
  case side =>
    intro p hp hne
    rw [List.countP_eq_zero]
    intro x hx
    rcases List.mem_map.mp hx with ⟨c, hc, rfl⟩
    rw [List.mem_flatMap] at hc
    obtain ⟨sf, _, hc⟩ := hc
    rw [List.mem_flatMap] at hc
    obtain ⟨r, _, hc⟩ := hc
    rcases List.mem_map.mp hc with ⟨d, _, rfl⟩
    intro hpred
    exact hne (of_decide_eq_true hpred).2
  · rw [List.map_flatMap, countP_flatMap]
    have hblocks : ∀ sf ∈ sfs.filter (fun sf => sf.dataset = ds),
        (List.map Prod.fst ((sf.recs.drop 1).flatMap (fun r =>
          (getMatchedDomains items r).map (fun d =>
            (((sf.model, ds, d) : SKey), r.error_type.getD "unknown"))))).countP
          (fun k => decide (k.1 = m ∧ k.2.1 = ds))
        = if decide (sf.model = m) = true
          then ((sf.recs.drop 1).map (fun r => (getMatchedDomains items r).length)).sum
          else 0 := by
      intro sf _
      rw [countP_pair_block items ds m sf]
      by_cases h : sf.model = m <;> simp [h]
    rw [List.map_congr_left hblocks]
    rw [sum_map_ite_filter]
    rw [List.filter_filter]

/-- Claim C5 (amended: the code enforces no consistency between a score file's summary
counts and the failure records that follow it, so the claim needs the hypotheses tying
them together — see the counterexample: a summary may record failures while no failure
record follows, leaving the domain sum below the dataset-level count; a failure record
matching a question whose `involved_classes` is empty likewise increments no domain
counter.  The pair's score file is assumed unique for its (model, dataset), the
concatenated `{dataset}_{model}` keys of the processed files pairwise distinct, every
failure record carrying a non-empty `id` that matches a question of the dataset tagged
with at least one domain — `getMatchedDomains` non-empty, i.e. the lookup of lines
181-186 yields a question with non-empty `involved_classes` — and the summary's
`total_count - correct_count` equal to the number of failure records): the sum over
all domains of the pair's domain-level `failed_instances` is at least the
dataset-level `failed_instances`, with equality exactly when every failing question
has exactly one domain. -/
theorem C5_domain_sum_vs_dataset (df : DataFiles) (sfs : List ScoreFile)
    (hnd : (df.map Prod.fst).Nodup)
    (m ds : String) (items : List DataItem) (hmem : (ds, items) ∈ df)
    (sf : ScoreFile) (hsf : sf ∈ sfs) (hm : sf.model = m) (hds : sf.dataset = ds)
    (hone : sfs.filter (fun s => decide (s.model = m) && decide (s.dataset = ds)) = [sf])
    (hinj : ((processedScoreFiles df sfs).map dsetKey).Nodup)
    (hmatch : ∀ r ∈ sf.recs.drop 1, ¬ getMatchedDomains items r = [])
    (hsum : summaryFailed sf.recs = ((sf.recs.drop 1).length : Int)) :
    (alGet (analyze_domain_performance df sfs).dataset_stats dfltDStat
        (dsetKey sf)).failed_instances
      ≤ sumFailedOver m ds
          (analyze_domain_performance df sfs).domain_stats_by_model_dataset
    ∧ (sumFailedOver m ds
          (analyze_domain_performance df sfs).domain_stats_by_model_dataset
        = (alGet (analyze_domain_performance df sfs).dataset_stats dfltDStat
            (dsetKey sf)).failed_instances
      ↔ ∀ r ∈ sf.recs.drop 1, (getMatchedDomains items r).length = 1) := by
  have hproc : sf ∈ processedScoreFiles df sfs := by
    unfold processedScoreFiles
    rw [List.mem_flatMap]
    refine ⟨(ds, items), hmem, List.mem_filter.mpr ⟨hsf, ?_⟩⟩
    exact decide_eq_true hds
  have hD : (alGet (analyze_domain_performance df sfs).dataset_stats dfltDStat
      (dsetKey sf)).failed_instances = summaryFailed sf.recs := by
    rw [analyze_dstats_eq, alGet_mapVals rateifyD_dflt, rateifyD_failed,
      failDStats_eq_foldl]
    exact dstep_foldl_failed (datasetTotals df) (processedScoreFiles df sfs) sf hinj
      hproc []
  have hndF : (alKeys (failStats df sfs (initPass df (allModels df sfs)))).Nodup := by
    rw [alKeys_failStats]
    exact nodup_alKeys_initPass df (allModels df sfs)
  have knodup : ((List.filter (fun e => decide (e.1.1 = m ∧ e.1.2.1 = ds))
          (failStats df sfs (initPass df (allModels df sfs)))).map Prod.fst).Nodup :=
    List.Nodup.sublist ((List.filter_sublist _).map Prod.fst) hndF
  have hcov : ∀ x ∈ (((failSpecs df sfs).map Prod.fst).filter (fun k => decide (k.1 = m ∧ k.2.1 = ds))), x ∈ ((List.filter (fun e => decide (e.1.1 = m ∧ e.1.2.1 = ds))
          (failStats df sfs (initPass df (allModels df sfs)))).map Prod.fst) := by
    intro x hx
    have hx2 := (List.mem_filter.mp hx).2
    rcases List.mem_map.mp (List.mem_filter.mp hx).1 with ⟨c, hcf, rfl⟩
    have hxF : c.1 ∈ alKeys (failStats df sfs (initPass df (allModels df sfs))) := by
      rw [alKeys_failStats]
      exact failSpecs_key_mem df sfs c hcf
    rcases List.mem_map.mp hxF with ⟨e, heF, hei⟩
    refine List.mem_map.mpr ⟨e, List.mem_filter.mpr ⟨heF, ?_⟩, hei⟩
    rw [hei]
    exact hx2
  have hS : sumFailedOver m ds
      (analyze_domain_performance df sfs).domain_stats_by_model_dataset
      = ((((sf.recs.drop 1).map (fun r => (getMatchedDomains items r).length)).sum : Nat) : Int) := by
    rw [analyze_stats_eq, sumFailedOver_mapVals]
    unfold sumFailedOver
    have hstep1 : (List.filter (fun e => decide (e.1.1 = m ∧ e.1.2.1 = ds))
          (failStats df sfs (initPass df (allModels df sfs)))).map
          (fun e => (e.2.failed_instances : Int))
        = (List.filter (fun e => decide (e.1.1 = m ∧ e.1.2.1 = ds))
          (failStats df sfs (initPass df (allModels df sfs)))).map
          (fun e => ((((failSpecs df sfs).map Prod.fst).count e.1 : Nat) : Int)) := by
      apply List.map_congr_left
      intro e he
      rw [failed_entry_failStats df sfs e (List.mem_filter.mp he).1]
    rw [hstep1, sum_map_natCast_int]
    congr 1
    have hmm : ((List.filter (fun e => decide (e.1.1 = m ∧ e.1.2.1 = ds))
          (failStats df sfs (initPass df (allModels df sfs)))).map Prod.fst).map (fun k => ((failSpecs df sfs).map Prod.fst).count k)
        = (List.filter (fun e => decide (e.1.1 = m ∧ e.1.2.1 = ds))
          (failStats df sfs (initPass df (allModels df sfs)))).map (fun e => ((failSpecs df sfs).map Prod.fst).count e.1) := by
      rw [List.map_map]
      rfl
    rw [← hmm]
    have hc2 : ((List.filter (fun e => decide (e.1.1 = m ∧ e.1.2.1 = ds))
          (failStats df sfs (initPass df (allModels df sfs)))).map Prod.fst).map (fun k => ((failSpecs df sfs).map Prod.fst).count k)
        = ((List.filter (fun e => decide (e.1.1 = m ∧ e.1.2.1 = ds))
          (failStats df sfs (initPass df (allModels df sfs)))).map Prod.fst).map (fun k => (((failSpecs df sfs).map Prod.fst).filter (fun k => decide (k.1 = m ∧ k.2.1 = ds))).count k) := by
      apply List.map_congr_left
      intro k hk
      rcases List.mem_map.mp hk with ⟨e, hef, rfl⟩
      exact (count_filter_pos ((failSpecs df sfs).map Prod.fst) (fun k => decide (k.1 = m ∧ k.2.1 = ds)) e.1
        ((List.mem_filter.mp hef).2)).symm
    rw [hc2]
    rw [sum_count_eq_length _ knodup (((failSpecs df sfs).map Prod.fst).filter (fun k => decide (k.1 = m ∧ k.2.1 = ds))) hcov]
    rw [← List.countP_eq_length_filter]
    rw [countP_failSpecs_pair df sfs hnd m ds items hmem]
    rw [hone]
    simp
  rw [hD, hS, hsum]
  have hposL : ∀ x ∈ (sf.recs.drop 1).map (fun r => (getMatchedDomains items r).length), 0 < x := by
    intro x hx
    rcases List.mem_map.mp hx with ⟨r, hr, rfl⟩
    exact List.length_pos.mpr (hmatch r hr)
  have hiff := sum_ge_length_iff ((sf.recs.drop 1).map (fun r => (getMatchedDomains items r).length)) hposL
  have hlen : ((sf.recs.drop 1).map (fun r => (getMatchedDomains items r).length)).length = (sf.recs.drop 1).length := List.length_map _ _
  constructor
  · refine Nat.cast_le.mpr ?_
    rw [← hlen]
    exact hiff.1
  · constructor
    · intro h
      have hnat : ((sf.recs.drop 1).map (fun r => (getMatchedDomains items r).length)).sum = (sf.recs.drop 1).length := Nat.cast_inj.mp h
      have hall := hiff.2.mp (by rw [hlen]; exact hnat)
      intro r hr
      exact hall _ (List.mem_map_of_mem _ hr)
    · intro hall
      have hallL : ∀ x ∈ (sf.recs.drop 1).map (fun r => (getMatchedDomains items r).length), x = 1 := by
        intro x hx
        rcases List.mem_map.mp hx with ⟨r, hr, rfl⟩
        exact hall r hr
      have hnat := hiff.2.mpr hallL
      rw [hlen] at hnat
      exact congrArg (fun n : Nat => (n : Int)) hnat

/-- Witness for the amended C5: one dataset with questions tagged `["A","B"]` and
`["A"]`, and one score file whose summary says 2 total / 1 correct with one failure
record matching the two-domain question. -/
theorem C5_witness :
    ((∀ r ∈ (⟨"m", "d", [{ total_count := some 2, correct_count := some 1 }, { id := some "q1" }]⟩ : ScoreFile).recs.drop 1,
        ¬ getMatchedDomains [⟨"q1", ["A", "B"]⟩, ⟨"q2", ["A"]⟩] r = [])
      ∧ summaryFailed (⟨"m", "d", [{ total_count := some 2, correct_count := some 1 }, { id := some "q1" }]⟩ : ScoreFile).recs
          = (((⟨"m", "d", [{ total_count := some 2, correct_count := some 1 }, { id := some "q1" }]⟩ : ScoreFile).recs.drop 1).length : Int))
    ∧ ((alGet (analyze_domain_performance [("d", [⟨"q1", ["A", "B"]⟩, ⟨"q2", ["A"]⟩])]
        [⟨"m", "d", [{ total_count := some 2, correct_count := some 1 }, { id := some "q1" }]⟩]).dataset_stats dfltDStat
          (dsetKey ⟨"m", "d", [{ total_count := some 2, correct_count := some 1 }, { id := some "q1" }]⟩)).failed_instances
        ≤ sumFailedOver "m" "d" (analyze_domain_performance [("d", [⟨"q1", ["A", "B"]⟩, ⟨"q2", ["A"]⟩])]
        [⟨"m", "d", [{ total_count := some 2, correct_count := some 1 }, { id := some "q1" }]⟩]).domain_stats_by_model_dataset
      ∧ (sumFailedOver "m" "d" (analyze_domain_performance [("d", [⟨"q1", ["A", "B"]⟩, ⟨"q2", ["A"]⟩])]
        [⟨"m", "d", [{ total_count := some 2, correct_count := some 1 }, { id := some "q1" }]⟩]).domain_stats_by_model_dataset
          = (alGet (analyze_domain_performance [("d", [⟨"q1", ["A", "B"]⟩, ⟨"q2", ["A"]⟩])]
        [⟨"m", "d", [{ total_count := some 2, correct_count := some 1 }, { id := some "q1" }]⟩]).dataset_stats dfltDStat
              (dsetKey ⟨"m", "d", [{ total_count := some 2, correct_count := some 1 }, { id := some "q1" }]⟩)).failed_instances
        ↔ ∀ r ∈ (⟨"m", "d", [{ total_count := some 2, correct_count := some 1 }, { id := some "q1" }]⟩ : ScoreFile).recs.drop 1,
            (getMatchedDomains [⟨"q1", ["A", "B"]⟩, ⟨"q2", ["A"]⟩] r).length = 1)) :=
  ⟨⟨by decide, by decide⟩,
   C5_domain_sum_vs_dataset [("d", [⟨"q1", ["A", "B"]⟩, ⟨"q2", ["A"]⟩])] [⟨"m", "d", [{ total_count := some 2, correct_count := some 1 }, { id := some "q1" }]⟩]
     (by decide) "m" "d" [⟨"q1", ["A", "B"]⟩, ⟨"q2", ["A"]⟩] (by decide)
     ⟨"m", "d", [{ total_count := some 2, correct_count := some 1 }, { id := some "q1" }]⟩ (by decide) rfl rfl (by decide) (by decide) (by decide) (by decide)⟩

/-- Counterexample to C5 as frozen: a score file whose summary says 1 total / 0
correct but which holds no failure records at all — the `("m", "d")` pair is present
in the result with dataset-level `failed_instances = 1`, yet the sum of its
domain-level failure counters is `0`, so the claimed `≥` fails. -/
theorem C5_counterexample :
    ((("m", "d", "A") : SKey) ∈ alKeys (analyze_domain_performance [("d", [⟨"q1", ["A"]⟩])]
        [⟨"m", "d", [{ total_count := some 1, correct_count := some 0 }]⟩]).domain_stats_by_model_dataset
      ∧ (alGet (analyze_domain_performance [("d", [⟨"q1", ["A"]⟩])]
        [⟨"m", "d", [{ total_count := some 1, correct_count := some 0 }]⟩]).dataset_stats dfltDStat "d_m").failed_instances = 1)
    ∧ ¬ ((alGet (analyze_domain_performance [("d", [⟨"q1", ["A"]⟩])]
        [⟨"m", "d", [{ total_count := some 1, correct_count := some 0 }]⟩]).dataset_stats dfltDStat "d_m").failed_instances
          ≤ sumFailedOver "m" "d" (analyze_domain_performance [("d", [⟨"q1", ["A"]⟩])]
        [⟨"m", "d", [{ total_count := some 1, correct_count := some 0 }]⟩]).domain_stats_by_model_dataset) := by
  decide

end BFCL
